import Mathlib

/-
  Verification of the go-datastore query-translation and transaction-coordination
  engine (package `datastore`, with the `customtypes` null-aware value types).

  The Lean definitions below are a shallow embedding of the Go source:

  * Go `map[string]interface{}` condition trees become the mutual inductive
    `Value` / `ValueList` / `EntryList`.  Go map iteration order is unspecified;
    the embedding processes entries in list order (the properties proved are
    order-insensitive or use single-entry maps).
  * Machine integers (`int`, `int64`) become `Int`; string building uses `String`.
  * A Go panic (failed type assertion, nil-pointer dereference) is modelled by
    `Option` / `none`; fallible operations return `Except`.
  * External driver behaviour (a GORM `Commit` / `Rollback` outcome, a Mongo
    session outcome, the row returned by a locked `First`) is passed in as an
    explicit parameter, so every function is pure and executable.
-/

namespace GoDatastore

/-- Engine tag.  Modelled from the spec: the closed set
`\x7bMySQL, PostgreSQL, SQLite, MongoDB, None\x7d` (the Go `Engine` constants live in
a file that is not part of the source snapshot; the test and library code uses
`MySQL`, `PostgreSQL`/`Postgres`, `SQLite`, `MongoDB`, and an unset sentinel). -/
inductive Engine where
  | mySQL
  | postgreSQL
  | sqlite
  | mongoDB
  | none
deriving DecidableEq, Repr

/-- Broken-down wall-clock timestamp with zone offset, the data `time.Time`
exposes to the three fixed format layouts used by `formatCondition`
(part_006 lines 650-666).  `offsetMin` is the zone offset east of UTC in
minutes; `nanos` is the sub-second part in nanoseconds. -/
structure NTime where
  year : Nat
  month : Nat
  day : Nat
  hour : Nat
  minute : Nat
  second : Nat
  nanos : Nat
  offsetMin : Int
deriving DecidableEq, Repr

/-- `customtypes.NullTime`: a timestamp plus a validity flag
(custom_types/nulltime.go). -/
structure NullTime where
  valid : Bool
  time : NTime
deriving DecidableEq, Repr

mutual
/-- A dynamic Go value as it occurs in a condition tree
(`map[string]interface{}` keys map to operator keywords or field names).
`vArr` is a Go slice, `vObj` a string-keyed map; `vTime` is
`customtypes.NullTime`. -/
inductive Value where
  | vNull : Value
  | vStr : String → Value
  | vInt : Int → Value
  | vBool : Bool → Value
  | vTime : NullTime → Value
  | vArr : ValueList → Value
  | vObj : EntryList → Value
deriving DecidableEq, Repr

/-- A Go slice of dynamic values. -/
inductive ValueList where
  | nil : ValueList
  | cons : Value → ValueList → ValueList
deriving DecidableEq, Repr

/-- A Go `map[string]interface{}`, in a fixed entry order. -/
inductive EntryList where
  | nil : EntryList
  | cons : String → Value → EntryList → EntryList
deriving DecidableEq, Repr
end

/-- Decimal digit list of a natural number (the first argument is fuel, always
called with fuel ≥ the number, so it never runs out). -/
def natCharsAux : Nat → Nat → List Char
  | 0, _ => []
  | fuel + 1, n =>
    if n < 10 then [Nat.digitChar n]
    else natCharsAux fuel (n / 10) ++ [Nat.digitChar (n % 10)]

/-- Decimal representation of a natural number, as Go `strconv.Itoa` for
non-negative input. -/
def natRepr (n : Nat) : String := String.mk (natCharsAux (n + 1) n)

/-- Decimal representation of an integer, as Go `strconv.FormatInt`. -/
def intRepr (n : Int) : String :=
  if n < 0 then "-" ++ natRepr n.natAbs else natRepr n.natAbs

/-- The bind-variable name `"var" + strconv.Itoa(varNum)` allocated by
`processConditions`. -/
def varName (n : Nat) : String := "var" ++ natRepr n

/-- Left-pad a decimal digit string to width 2, as the Go layout token `04`. -/
def pad2 (n : Nat) : String :=
  if n < 10 then "0" ++ natRepr n else natRepr n

/-- Left-pad to width 3, as the Go layout token `000` (millisecond fraction). -/
def pad3 (n : Nat) : String :=
  if n < 10 then "00" ++ natRepr n
  else if n < 100 then "0" ++ natRepr n
  else natRepr n

/-- Left-pad to width 4, as the Go layout token `2006` (the year). -/
def pad4 (n : Nat) : String :=
  if n < 10 then "000" ++ natRepr n
  else if n < 100 then "00" ++ natRepr n
  else if n < 1000 then "0" ++ natRepr n
  else natRepr n

/-- Go layout fragment `Z07:00`: `Z` when the offset is zero, else a signed
`hh:mm` offset. -/
def zoneSuffix (offsetMin : Int) : String :=
  if offsetMin = 0 then "Z"
  else (if offsetMin > 0 then "+" else "-") ++
    pad2 (offsetMin.natAbs / 60) ++ ":" ++ pad2 (offsetMin.natAbs % 60)

/-- Go `v.Time.Format("2006-01-02 15:04:05")` — the MySQL branch of
`formatCondition`. -/
def timeFormatMySQL (t : NTime) : String :=
  pad4 t.year ++ "-" ++ pad2 t.month ++ "-" ++ pad2 t.day ++ " " ++
    pad2 t.hour ++ ":" ++ pad2 t.minute ++ ":" ++ pad2 t.second

/-- Go `v.Time.Format("2006-01-02T15:04:05Z07:00")` — the PostgreSQL branch of
`formatCondition` (RFC 3339, second precision). -/
def timeFormatPostgreSQL (t : NTime) : String :=
  pad4 t.year ++ "-" ++ pad2 t.month ++ "-" ++ pad2 t.day ++ "T" ++
    pad2 t.hour ++ ":" ++ pad2 t.minute ++ ":" ++ pad2 t.second ++
    zoneSuffix t.offsetMin

/-- Go `v.Time.Format("2006-01-02T15:04:05.000Z")` — the default branch of
`formatCondition` (SQLite and every other engine).  `.000` truncates the
fraction to milliseconds; the trailing `Z` is a literal character in this
layout (it is not the `Z07:00` zone token), so it is emitted verbatim. -/
def timeFormatSQLite (t : NTime) : String :=
  pad4 t.year ++ "-" ++ pad2 t.month ++ "-" ++ pad2 t.day ++ "T" ++
    pad2 t.hour ++ ":" ++ pad2 t.minute ++ ":" ++ pad2 t.second ++ "." ++
    pad3 (t.nanos / 1000000) ++ "Z"

/-- `formatCondition` (part_006 lines 650-666): engine-specific
stringification of a `customtypes.NullTime` predicate value; every other
value is returned as-is. -/
def formatCondition (condition : Value) (engine : Engine) : Value :=
  match condition with
  | .vTime v =>
    if v.valid then
      if engine = .mySQL then .vStr (timeFormatMySQL v.time)
      else if engine = .postgreSQL then .vStr (timeFormatPostgreSQL v.time)
      else .vStr (timeFormatSQLite v.time)
    else .vNull
  | c => c

/-- Modelled from the spec: the bind value the spec promises for a nullable
timestamp predicate — MySQL `YYYY-MM-DD HH:MM:SS`; PostgreSQL
`YYYY-MM-DDTHH:MM:SSZ07:00` (RFC 3339 with zone offset, `Z` when UTC);
SQLite and any other engine `YYYY-MM-DDTHH:MM:SS.000Z` (millisecond
precision). -/
def specTimestampBind (engine : Engine) (t : NTime) : String :=
  let dateYMD := pad4 t.year ++ "-" ++ pad2 t.month ++ "-" ++ pad2 t.day
  let clockHMS := pad2 t.hour ++ ":" ++ pad2 t.minute ++ ":" ++ pad2 t.second
  match engine with
  | .mySQL => dateYMD ++ " " ++ clockHMS
  | .postgreSQL => dateYMD ++ "T" ++ clockHMS ++ zoneSuffix t.offsetMin
  | _ => dateYMD ++ "T" ++ clockHMS ++ "." ++ pad3 (t.nanos / 1000000) ++ "Z"

/-- `DateFields` (definitions.go line 73): the standard known date fields. -/
def DateFields : List String := ["created_at", "updated_at", "modified_at"]

/-- The grouping key built by `Client.aggregate` (models.go lines 488-541):
with conditions present the column is used verbatim; with no conditions a
known date field is wrapped in the dialect's date expression
(MySQL `DATE_FORMAT`, PostgreSQL `to_char`, anything else `strftime`). -/
def aggregateGroupColumn (engine : Engine) (hasConditions : Bool) (aggregateColumn : String) :
    String :=
  if hasConditions then aggregateColumn
  else
    if aggregateColumn ∈ DateFields then
      if engine = .mySQL then "DATE_FORMAT(" ++ aggregateColumn ++ ", '%Y%m%d')"
      else if engine = .postgreSQL then "to_char(" ++ aggregateColumn ++ ", 'YYYYMMDD')"
      else "strftime('%Y%m%d', " ++ aggregateColumn ++ ")"
    else aggregateColumn

/-- An error surfaced by a database driver, carried verbatim. -/
inductive DriverErr where
  | mk : String → DriverErr
deriving DecidableEq, Repr

/-- A call the transaction facade makes into a backend driver. -/
inductive DriverCall where
  | sqlCommit
  | sqlRollback
  | mongoCommit
  | mongoAbort
deriving DecidableEq, Repr

/-- `Transaction` (part_000 lines 85-90).  The two handle pointers are
modelled by presence flags (`true` iff the Go pointer is non-nil). -/
structure Transaction where
  committed : Bool
  sqlTx : Bool
  mongoTx : Bool
  rowsAffected : Int
deriving DecidableEq, Repr

/-- `Transaction.CanCommit` (part_000 lines 92-94). -/
def Transaction.CanCommit (tx : Transaction) : Bool :=
  !tx.committed && (tx.sqlTx || tx.mongoTx)

/-- `Transaction.Rollback` (part_000 lines 97-107).  The GORM rollback result
is discarded by the source; the Mongo abort outcome is the `mongoAbortErr`
parameter.  Returns the error and the driver calls made. -/
def Transaction.Rollback (tx : Transaction) (mongoAbortErr : Option DriverErr) :
    Option DriverErr × List DriverCall :=
  let calls := if tx.sqlTx then [DriverCall.sqlRollback] else []
  if tx.mongoTx then (mongoAbortErr, calls ++ [DriverCall.mongoAbort])
  else (Option.none, calls)

/-- `Transaction.Commit` (part_000 lines 110-140).  `sqlErr`/`sqlRows` are the
outcome of the GORM driver commit, `mongoErr` of the Mongo session commit.
Returns the transaction state after the call, the returned error, and the
driver calls made (on a GORM commit error the source rolls the result back
and returns the original error unchanged). -/
def Transaction.Commit (tx : Transaction) (sqlErr : Option DriverErr) (sqlRows : Int)
    (mongoErr : Option DriverErr) : Transaction × Option DriverErr × List DriverCall :=
  if tx.committed then (tx, Option.none, [])
  else if !tx.sqlTx && !tx.mongoTx then (tx, Option.none, [])
  else
    let afterSql : Transaction × Option DriverErr × List DriverCall :=
      if tx.sqlTx then
        match sqlErr with
        | some e => (tx, some e, [DriverCall.sqlCommit, DriverCall.sqlRollback])
        | Option.none =>
          ({ tx with committed := true, rowsAffected := sqlRows }, Option.none,
            [DriverCall.sqlCommit])
      else (tx, Option.none, [])
    match afterSql with
    | (tx1, some e, calls) => (tx1, some e, calls)
    | (tx1, Option.none, calls) =>
      if tx.mongoTx then
        match mongoErr with
        | some e => (tx1, some e, calls ++ [DriverCall.mongoCommit])
        | Option.none =>
          ({ tx1 with committed := true, rowsAffected := 1 }, Option.none,
            calls ++ [DriverCall.mongoCommit])
      else (tx1, Option.none, calls)

/-- The zero-value `&Transaction\x7b\x7d`: both backend handles absent — the no-op
transaction `NewTx` / `NewRawTx` hand out when no database is configured. -/
def emptyTransaction : Transaction :=
  { committed := false, sqlTx := false, mongoTx := false, rowsAffected := 0 }

/-- The transaction `NewTx` builds on the GORM path: a freshly begun SQL
transaction handle. -/
def beginSqlTransaction : Transaction :=
  { committed := false, sqlTx := true, mongoTx := false, rowsAffected := 0 }

/-- The transaction `NewTx` builds on the Mongo path: a freshly started
session transaction. -/
def beginMongoTransaction : Transaction :=
  { committed := false, sqlTx := false, mongoTx := true, rowsAffected := 0 }

/-- The client options `NewTx` consults (part_000 lines 25-50): whether a GORM
database is configured, and whether Mongo transactions are enabled. -/
structure TxOptions where
  hasDb : Bool
  mongoTransactions : Bool
deriving DecidableEq, Repr

/-- `Client.NewTx` (part_000 lines 25-50).  `mongoStartErr` is the outcome of
`sessionContext.StartTransaction()`.  The callback `fn` receives the fresh
transaction and may transition it; it returns its error and the transaction
state it leaves behind.  `NewTx` returns exactly the callback's error (or the
start error when the Mongo transaction cannot start, in which case `fn` is
never invoked and the second component is `none`); it applies no commit and
no rollback of its own, so the final transaction state is exactly the one
`fn` produced. -/
def NewTx (opts : TxOptions) (mongoStartErr : Option DriverErr)
    (fn : Transaction → Option DriverErr × Transaction) :
    Option DriverErr × Option Transaction :=
  if opts.hasDb then
    let r := fn beginSqlTransaction
    (r.1, some r.2)
  else if opts.mongoTransactions then
    match mongoStartErr with
    | some e => (some e, Option.none)
    | Option.none =>
      let r := fn beginMongoTransaction
      (r.1, some r.2)
  else
    let r := fn emptyTransaction
    (r.1, some r.2)

/-- The transaction `NewTx` begins for given options and Mongo start outcome
(`none` when the begin step itself fails and the callback is not reached). -/
def beginTxOf (opts : TxOptions) (mongoStartErr : Option DriverErr) : Option Transaction :=
  if opts.hasDb then some beginSqlTransaction
  else if opts.mongoTransactions then
    match mongoStartErr with
    | some _ => Option.none
    | Option.none => some beginMongoTransaction
  else some emptyTransaction

/-- Errors relevant to `IncrementModel`. -/
inductive IncErr where
  | missingIDField
  | recordNotFound
deriving DecidableEq, Repr

/-- A row read by the locked `First` inside `IncrementModel`: the
`map[string]interface\x7b\x7d` of column values. -/
def IncRow := List (String × Value)

/-- Models GORM `First` (gorm v1.25, the version in go.mod): `First` raises
`ErrRecordNotFound` when no row matches; on success it fills the destination
map, which is then non-nil. -/
def gormFirst (row : Option IncRow) : Except IncErr (Option IncRow) :=
  match row with
  | some r => .ok (some r)
  | Option.none => .error .recordNotFound

/-- Go map indexing `result[fieldName]`: `nil` when the key is absent. -/
def rowLookup (r : IncRow) (fieldName : String) : Value :=
  match List.find? (fun e => e.1 = fieldName) r with
  | some e => e.2
  | Option.none => .vNull

/-- `convertToInt64` (models.go lines 193-206): the integer kinds convert;
every other dynamic type (including `nil`) falls through to the type
assertion `i.(int64)`, which panics — modelled by `none`. -/
def convertToInt64 (i : Value) : Option Int :=
  match i with
  | .vInt v => some v
  | _ => Option.none

/-- The transaction body of `Client.IncrementModel` (models.go lines 134-156):
row-lock and `First` the record by ID, treat a nil result as current = 0
without issuing an update, else update the field to current + increment.
Returns `none` on a Go panic; otherwise the error or
(newValue, the update issued: `some v` when an UPDATE to `v` was executed,
`none` when no write happened).  Note the nil-result branch is unreachable:
`gormFirst` raises `recordNotFound` instead of succeeding with nil. -/
def IncrementTxBody (row : Option IncRow) (fieldName : String) (increment : Int) :
    Option (Except IncErr (Int × Option Int)) :=
  match gormFirst row with
  | .error e => some (.error e)
  | .ok result =>
    match result with
    | Option.none => some (.ok (increment, Option.none))
    | some r =>
      match convertToInt64 (rowLookup r fieldName) with
      | Option.none => Option.none
      | some current => some (.ok (current + increment, some (current + increment)))

/-- `Client.IncrementModel` (models.go lines 119-161) on a SQL engine:
resolve the model ID (error when absent), run the transaction body against
the row the table holds for that ID. -/
def IncrementModel (modelID : Option String) (table : String → Option IncRow)
    (fieldName : String) (increment : Int) : Option (Except IncErr (Int × Option Int)) :=
  match modelID with
  | Option.none => some (.error .missingIDField)
  | some id => IncrementTxBody (table id) fieldName increment

/-- `QueryParams` (part_006 lines 416-421).  The Go fields are `int`s, so they
are modelled by `Int`. -/
structure QueryParams where
  Page : Int
  PageSize : Int
  OrderByField : String
  SortDirection : String
deriving DecidableEq, Repr

/-- `defaultPageSize` (definitions.go line 19). -/
def defaultPageSize : Int := 20

/-- The query-parameter prologue of `Client.GetModels` (models.go lines
317-327): a nil pointer is replaced by a fresh empty struct (the caller's
variable is unaffected); then, in place, the default page size is applied
when `Page > 0` and `PageSize < 1`, and `SortDirection` is lower-cased
(`strings.ToLower`; the sort directions are ASCII, where Lean's
`String.toLower` agrees with Go).  All other fields are untouched. -/
def GetModelsQueryDefaults (queryParams : Option QueryParams) : QueryParams :=
  let qp : QueryParams := match queryParams with
    | Option.none => { Page := 0, PageSize := 0, OrderByField := "", SortDirection := "" }
    | some q => q
  let qp1 := if qp.Page > 0 ∧ qp.PageSize < 1 then { qp with PageSize := defaultPageSize } else qp
  { qp1 with SortDirection := qp1.SortDirection.toLower }


/-- Go `strings.Join`. -/
def joinStrs (sep : String) : List String → String
  | [] => ""
  | [s] => s
  | s :: rest => s ++ sep ++ joinStrs sep rest

/-- `escapeDBString` (part_006 lines 735-738): backslash-escape `'` and `"`. -/
def escapeDBStringChar (c : Char) : List Char :=
  if c = '\'' then ['\\', '\'']
  else if c = '"' then ['\\', '"']
  else [c]

/-- `escapeDBString` (part_006 lines 735-738). -/
def escapeDBString (s : String) : String :=
  String.mk (s.data.flatMap escapeDBStringChar)

/-- encoding/json string escaping for `"` and `\`.  (The library also escapes
control characters and, by default, `<`, `>`, `&`; those escapes are elided
here — they neither add nor remove any other character of the input and no
property below depends on them.) -/
def jsonEscChar (c : Char) : List Char :=
  if c = '\\' then ['\\', '\\']
  else if c = '"' then ['\\', '"']
  else [c]

/-- encoding/json escaping of a whole string. -/
def jsonEscape (s : String) : String :=
  String.mk (s.data.flatMap jsonEscChar)

/-- Zero-pad a decimal representation on the left to width `w`. -/
def padZeros (w : Nat) (n : Nat) : String :=
  String.mk (List.replicate (w - (natRepr n).length) '0') ++ natRepr n

/-- Drop trailing `'0'` characters (for the RFC 3339 nanosecond fraction). -/
def dropTrailingZeros (l : List Char) : List Char :=
  (l.reverse.dropWhile (fun c => c = '0')).reverse

/-- Go `json.Marshal(time.Time)`: RFC 3339 with nanoseconds, trailing zeros
of the fraction trimmed and the fraction omitted when zero. -/
def timeFormatRFC3339Nano (t : NTime) : String :=
  let frac := dropTrailingZeros (padZeros 9 t.nanos).data
  pad4 t.year ++ "-" ++ pad2 t.month ++ "-" ++ pad2 t.day ++ "T" ++
    pad2 t.hour ++ ":" ++ pad2 t.minute ++ ":" ++ pad2 t.second ++
    (if frac.isEmpty then "" else "." ++ String.mk frac) ++
    zoneSuffix t.offsetMin

mutual
/-- The effect of a `json.Marshal` / `json.Unmarshal` round trip on a dynamic
value (used by `whereObject`): maps and slices keep their shape with
normalised members, a valid `customtypes.NullTime` marshals to its RFC 3339
string, an invalid one to JSON null; scalars survive unchanged. -/
def jsonValue : Value → Value
  | .vTime t => if t.valid then .vStr (timeFormatRFC3339Nano t.time) else .vNull
  | .vArr vs => .vArr (jsonValueList vs)
  | .vObj es => .vObj (jsonValueEntries es)
  | v => v

/-- Round-trip normalisation of a slice, element-wise. -/
def jsonValueList : ValueList → ValueList
  | .nil => .nil
  | .cons v rest => .cons (jsonValue v) (jsonValueList rest)

/-- Round-trip normalisation of a map, entry-wise. -/
def jsonValueEntries : EntryList → EntryList
  | .nil => .nil
  | .cons k v rest => .cons k (jsonValue v) (jsonValueEntries rest)
end

mutual
/-- Go `json.Marshal` of a dynamic value, as the text spliced into
`whereObject` fragments. -/
def jsonText : Value → String
  | .vNull => "null"
  | .vStr s => "\"" ++ jsonEscape s ++ "\""
  | .vInt n => intRepr n
  | .vBool b => if b then "true" else "false"
  | .vTime t => if t.valid then "\"" ++ timeFormatRFC3339Nano t.time ++ "\"" else "null"
  | .vArr vs => "[" ++ jsonTextList vs ++ "]"
  | .vObj es => "\x7b" ++ jsonTextEntries es ++ "\x7d"

/-- JSON text of a slice body. -/
def jsonTextList : ValueList → String
  | .nil => ""
  | .cons v .nil => jsonText v
  | .cons v rest => jsonText v ++ "," ++ jsonTextList rest

/-- JSON text of a map body. -/
def jsonTextEntries : EntryList → String
  | .nil => ""
  | .cons k v .nil => "\"" ++ jsonEscape k ++ "\":" ++ jsonText v
  | .cons k v rest => "\"" ++ jsonEscape k ++ "\":" ++ jsonText v ++ "," ++ jsonTextEntries rest
end

/-- The `var rangeV map[string]interface\x7b\x7d; json.Unmarshal(vJSON, &rangeV)`
step of `whereObject`: a map yields its (normalised) entries, anything else
fails to unmarshal and leaves the nil map. -/
def jsonNormalizeEntries (v : Value) : EntryList :=
  match jsonValue v with
  | .vObj es => es
  | _ => .nil

/-- The inner loop of `whereObject` for a nested map under MySQL / SQLite
(part_006 lines 774-781): one `JSON_EXTRACT` comparison per entry, the leaf
marshalled to JSON text. -/
def whereObjectNestedParts (k rangeKey : String) : EntryList → List String
  | .nil => []
  | .cons kk vvv rest =>
    ("JSON_EXTRACT(" ++ k ++ ", '$." ++ rangeKey ++ "." ++ kk ++ "') = " ++ jsonText vvv) ::
      whereObjectNestedParts k rangeKey rest

/-- The string `whereObject` interpolates for a range value under PostgreSQL
(part_006 lines 784-790): a string value is escaped and quoted, anything
else is serialised to JSON text. -/
def pgRangeValue (rangeValue : Value) : String :=
  match rangeValue with
  | .vStr s => "\"" ++ escapeDBString s ++ "\""
  | vv => jsonText vv

/-- One iteration of the `whereObject` range loop (part_006 lines 768-794):
the query parts contributed by a single `(rangeKey, rangeValue)` entry.
`none` models the panic of `rangeValue.(string)` in the fallback-engine
branch. -/
def whereObjectOnePart (engine : Engine) (k rangeKey : String) (rangeValue : Value) :
    Option (List String) :=
  if engine = .mySQL ∨ engine = .sqlite then
    match rangeValue with
    | .vStr s =>
      some ["JSON_EXTRACT(" ++ k ++ ", '$." ++ rangeKey ++ "') = " ++
        ("\"" ++ escapeDBString s ++ "\"")]
    | vv =>
      match vv with
      | .vObj metadata => some (whereObjectNestedParts k rangeKey metadata)
      | _ => some []
  else if engine = .postgreSQL then
    some [k ++ "::jsonb @> '\x7b\"" ++ rangeKey ++ "\":" ++ pgRangeValue rangeValue ++
      "\x7d'::jsonb"]
  else
    match rangeValue with
    | .vStr s =>
      some ["JSON_EXTRACT(" ++ k ++ ", '$." ++ rangeKey ++ "') = '" ++ escapeDBString s ++ "'"]
    | _ => Option.none

/-- The full `whereObject` range loop over the normalised entries. -/
def whereObjectParts (engine : Engine) (k : String) : EntryList → Option (List String)
  | .nil => some []
  | .cons rangeKey rangeValue rest =>
    match whereObjectOnePart engine k rangeKey rangeValue with
    | Option.none => Option.none
    | some parts =>
      match whereObjectParts engine k rest with
      | Option.none => Option.none
      | some ps => some (parts ++ ps)

/-- `whereObject` (part_006 lines 757-806): JSON-object probe fragment.
Zero parts yield the empty fragment; one part is used bare; several are
parenthesised and joined with AND. -/
def whereObject (engine : Engine) (k : String) (v : Value) : Option String :=
  match whereObjectParts engine k (jsonNormalizeEntries v) with
  | Option.none => Option.none
  | some [] => some ""
  | some [q] => some q
  | some qs => some ("(" ++ joinStrs " AND " qs ++ ")")

/-- `whereSlice` (part_006 lines 822-829): JSON-array containment fragment.
`none` models the panic of the `v.(string)` type assertion. -/
def whereSlice (engine : Engine) (k : String) (v : Value) : Option String :=
  match v with
  | .vStr s =>
    some
      (if engine = .mySQL then
        "JSON_CONTAINS(" ++ k ++ ", CAST('[\"" ++ s ++ "\"]' AS JSON))"
      else if engine = .postgreSQL then
        k ++ "::jsonb @> '[\"" ++ s ++ "\"]'"
      else
        "EXISTS (SELECT 1 FROM json_each(" ++ k ++ ") WHERE value = \"" ++ s ++ "\")")
  | _ => Option.none

/-- `conditionAnd` (definitions.go line 46). -/
def conditionAnd : String := "$and"

/-- `conditionExists` (definitions.go line 48). -/
def conditionExists : String := "$exists"

/-- `conditionGreaterThan` (definitions.go line 49). -/
def conditionGreaterThan : String := "$gt"

/-- `conditionGreaterThanOrEqual` (definitions.go line 50). -/
def conditionGreaterThanOrEqual : String := "$gte"

/-- `conditionIn` (definitions.go line 52). -/
def conditionIn : String := "$in"

/-- `conditionLessThan` (definitions.go line 54). -/
def conditionLessThan : String := "$lt"

/-- `conditionLessThanOrEqual` (definitions.go line 55). -/
def conditionLessThanOrEqual : String := "$lte"

/-- `conditionNotEquals` (definitions.go line 57). -/
def conditionNotEquals : String := "$ne"

/-- `conditionNotIn` (definitions.go line 58).  Note: `processConditions` has
no branch for this keyword. -/
def conditionNotIn : String := "$nin"

/-- `conditionOr` (definitions.go line 59). -/
def conditionOr : String := "$or"

/-- The client capabilities `processConditions` consults:
`client.GetArrayFields()` and `client.GetObjectFields()`. -/
structure ClientFields where
  arrayFields : List String
  objectFields : List String
deriving DecidableEq, Repr

/-- What one accumulator collects: the emitted WHERE fragments in order, and
the merged bind map as ordered (name, value) pairs. -/
abbrev Emit := List String × List (String × Value)

/-- The `$in` loop of `processConditions` (part_006 lines 592-601): one
variable per element, in allocation order.  Returns the `@var` name list,
the binds, and the advanced counter. -/
def inItems (engine : Engine) : ValueList → Nat → List String × List (String × Value) × Nat
  | .nil, n => ([], [], n)
  | .cons val rest, n =>
    let r := inItems engine rest (n + 1)
    (("@" ++ varName n) :: r.1, (varName n, formatCondition val engine) :: r.2.1, r.2.2)

/-- Wrap an accumulated `$and` result (part_006 lines 690-694): one fragment
joining the sub-clauses with AND, with the merged binds. -/
def wrapAndEmit (r : Option (Emit × Nat)) : Option (Emit × Nat) :=
  match r with
  | Option.none => Option.none
  | some ((frags, binds), n1) =>
    some (([" ( " ++ joinStrs " AND " frags ++ " ) "], binds), n1)

/-- Wrap an accumulated `$or` result (part_006 lines 726-732): one fragment
joining the per-element statements with OR, with the merged binds. -/
def wrapOrEmit (r : Option ((List String × List (String × Value)) × Nat)) :
    Option (Emit × Nat) :=
  match r with
  | Option.none => Option.none
  | some ((stmts, binds), n1) =>
    some (([" ( (" ++ joinStrs ") OR (" stmts ++ ") ) "], binds), n1)

/-- A comparator branch of `processConditions` (part_006 lines 566-590): the
five branches are identical up to the operator text `op` (e.g. `" > @"`).
Dereferencing a nil `parentKey` is a Go panic (`none`). -/
def emitCompare (engine : Engine) (op : String) (condition : Value) (varNum : Nat)
    (parentKey : Option String) : Option (Emit × Nat) :=
  match parentKey with
  | Option.none => Option.none
  | some p =>
    some (([p ++ op ++ varName varNum],
      [(varName varNum, formatCondition condition engine)]), varNum + 1)

/-- The `$exists` branch (part_006 lines 586-591): requires a bool (a failed
type assertion panics) and a parent key. -/
def emitExists (condition : Value) (varNum : Nat) (parentKey : Option String) :
    Option (Emit × Nat) :=
  match parentKey with
  | Option.none => Option.none
  | some p =>
    match condition with
    | .vBool b =>
      some ((if b then ([p ++ " IS NOT NULL"], []) else ([p ++ " IS NULL"], []), varNum))
    | _ => Option.none

/-- The `$in` branch (part_006 lines 592-601): one variable per element of
the slice (a non-slice fails the type assertion). -/
def emitIn (engine : Engine) (condition : Value) (varNum : Nat)
    (parentKey : Option String) : Option (Emit × Nat) :=
  match condition with
  | .vArr vals =>
    match parentKey with
    | Option.none => Option.none
    | some p =>
      let r := inItems engine vals varNum
      some (([p ++ " IN (" ++ joinStrs "," r.1 ++ ")"], r.2.1), r.2.2)
  | _ => Option.none

/-- The array-field branch (part_006 line 603): emit the dialect's
containment fragment with no binds. -/
def emitArrayField (engine : Engine) (key : String) (condition : Value) (varNum : Nat) :
    Option (Emit × Nat) :=
  match whereSlice engine key (formatCondition condition engine) with
  | Option.none => Option.none
  | some f => some (([f], []), varNum)

/-- The object-field branch (part_006 line 605): emit the dialect's
object-probe fragment with no binds. -/
def emitObjectField (engine : Engine) (key : String) (condition : Value) (varNum : Nat) :
    Option (Emit × Nat) :=
  match whereObject engine key (formatCondition condition engine) with
  | Option.none => Option.none
  | some f => some (([f], []), varNum)

mutual
/-- `processConditions` (part_006 lines 558-631): fold over the condition
map's entries; each entry contributes fragments and binds through
`processConditionEntry`, threading the variable counter.  (The Go loop
iterates a map in unspecified order; the embedding uses the entry-list
order.)  `none` models a Go panic. -/
def processConditions (client : ClientFields) (engine : Engine) (conditions : EntryList)
    (varNum : Nat) (parentKey : Option String) : Option (Emit × Nat) :=
  match conditions with
  | .nil => some (([], []), varNum)
  | .cons key condition rest =>
    match processConditionEntry client engine key condition varNum parentKey with
    | Option.none => Option.none
    | some (e1, n1) =>
      match processConditions client engine rest n1 parentKey with
      | Option.none => Option.none
      | some (e2, n2) => some ((e1.1 ++ e2.1, e1.2 ++ e2.2), n2)

/-- The body of the `processConditions` loop for one `(key, condition)` entry
(part_006 lines 562-625), branch for branch: `$and`, `$or`, the five
comparators (which dereference `parentKey` — nil dereference is `none`),
`$exists` (requires a bool), `$in` (requires a slice), array fields, object
fields, and the bare-field fallback (IS NULL / recurse into a map / bind an
equality).  A Go map value that is not `map[string]interface\x7b\x7d` is
JSON-round-tripped by the source into one; in this embedding `vObj` is the
only map shape, so that normalisation is the identity and the `.vObj` arm
covers both. -/
def processConditionEntry (client : ClientFields) (engine : Engine) (key : String)
    (condition : Value) (varNum : Nat) (parentKey : Option String) : Option (Emit × Nat) :=
  if key = conditionAnd then
    match condition with
    | .vArr elems => wrapAndEmit (processWhereAndList client engine elems varNum)
    | _ => Option.none
  else if key = conditionOr then
    match condition with
    | .vArr elems => wrapOrEmit (processWhereOrList client engine elems varNum)
    | _ => Option.none
  else if key = conditionGreaterThan then
    emitCompare engine " > @" condition varNum parentKey
  else if key = conditionLessThan then
    emitCompare engine " < @" condition varNum parentKey
  else if key = conditionGreaterThanOrEqual then
    emitCompare engine " >= @" condition varNum parentKey
  else if key = conditionLessThanOrEqual then
    emitCompare engine " <= @" condition varNum parentKey
  else if key = conditionNotEquals then
    emitCompare engine " != @" condition varNum parentKey
  else if key = conditionExists then
    emitExists condition varNum parentKey
  else if key = conditionIn then
    emitIn engine condition varNum parentKey
  else if key ∈ client.arrayFields then
    emitArrayField engine key condition varNum
  else if key ∈ client.objectFields then
    emitObjectField engine key condition varNum
  else
    match condition with
    | .vNull => some (([key ++ " IS NULL"], []), varNum)
    | .vObj m => processConditions client engine m varNum (some key)
    | c =>
      some (([key ++ " = @" ++ varName varNum],
        [(varName varNum, formatCondition c engine)]), varNum + 1)

/-- `processWhereAnd` (part_006 lines 681-695): recurse into each element of
the `$and` slice (which must be a slice of maps — anything else fails the
Go type assertion) with a fresh sub-accumulator and no parent key,
concatenating fragments and merging binds. -/
def processWhereAndList (client : ClientFields) (engine : Engine) :
    ValueList → Nat → Option (Emit × Nat)
  | .nil, n => some (([], []), n)
  | .cons (.vObj m) rest, n =>
    match processConditions client engine m n Option.none with
    | Option.none => Option.none
    | some (e1, n1) =>
      match processWhereAndList client engine rest n1 with
      | Option.none => Option.none
      | some (e2, n2) => some ((e1.1 ++ e2.1, e1.2 ++ e2.2), n2)
  | .cons _ _, _ => Option.none

/-- `processWhereOr` (part_006 lines 710-733): each element of the `$or`
slice (a slice of maps) is processed with a fresh sub-accumulator; its
fragments are joined with AND into one statement, and all binds merge. -/
def processWhereOrList (client : ClientFields) (engine : Engine) :
    ValueList → Nat → Option ((List String × List (String × Value)) × Nat)
  | .nil, n => some (([], []), n)
  | .cons (.vObj m) rest, n =>
    match processConditions client engine m n Option.none with
    | Option.none => Option.none
    | some ((frags, binds), n1) =>
      match processWhereOrList client engine rest n1 with
      | Option.none => Option.none
      | some ((stmts, binds2), n2) => some ((joinStrs " AND " frags :: stmts, binds ++ binds2), n2)
  | .cons _ _, _ => Option.none
end

/-- `Client.CustomWhere` (part_006 lines 495-505): run `processConditions`
with an empty accumulator and the variable counter starting at 0. -/
def CustomWhere (client : ClientFields) (engine : Engine) (conditions : EntryList) :
    Option (Emit × Nat) :=
  processConditions client engine conditions 0 Option.none

/-- A character that can continue a named bind variable (GORM named
parameters are word characters). -/
def isVarChar (c : Char) : Bool := c.isAlphanum

/-- Whether a scanned name is a bind-variable reference `var<digits>`. -/
def isVarForm : List Char → Bool
  | 'v' :: 'a' :: 'r' :: ds => !ds.isEmpty && ds.all (fun c => c.isDigit)
  | _ => false

/-- Scan a fragment for bind-variable references: every maximal alphanumeric
run immediately after an `@` that has the shape `var<digits>`.  (An `@` not
followed by such a run — e.g. the PostgreSQL `@>` operator — references
nothing.) -/
def varRefsL (l : List Char) : List String :=
  match l with
  | [] => []
  | c :: rest =>
    if c = '@' then
      let name := rest.takeWhile isVarChar
      if isVarForm name then String.mk name :: varRefsL (rest.dropWhile isVarChar)
      else varRefsL (rest.dropWhile isVarChar)
    else varRefsL rest
termination_by l.length
decreasing_by
  all_goals
    simp only [List.length_cons]
    first
    | exact Nat.lt_succ_of_le (List.dropWhile_sublist _).length_le
    | exact Nat.lt_succ_of_le (Nat.le_refl _)

/-- Bind-variable references of a fragment string. -/
def varRefs (s : String) : List String := varRefsL s.data

/-- `varSeq n k`: the consecutive variable names `var<n>, …, var<n+k-1>`. -/
def varSeq : Nat → Nat → List String
  | _, 0 => []
  | n, k + 1 => varName n :: varSeq (n + 1) k

/-- Whether a string is free of the `@` character (user-supplied field names
and literals interpolated into fragments must not themselves look like
variable references). -/
def noAtStr (s : String) : Bool := s.data.all (fun c => c ≠ '@')

mutual
/-- All strings reachable in a value are `@`-free. -/
def atFreeValue : Value → Bool
  | .vStr s => noAtStr s
  | .vArr vs => atFreeValueList vs
  | .vObj es => atFreeEntries es
  | _ => true

/-- All strings reachable in a slice are `@`-free. -/
def atFreeValueList : ValueList → Bool
  | .nil => true
  | .cons v rest => atFreeValue v && atFreeValueList rest

/-- All keys and values of a condition map are `@`-free. -/
def atFreeEntries : EntryList → Bool
  | .nil => true
  | .cons k v rest => noAtStr k && atFreeValue v && atFreeEntries rest
end

/-- The optional parent key is `@`-free. -/
def atFreeParent : Option String → Bool
  | Option.none => true
  | some p => noAtStr p

/-- Decimal value of a digit list (inverse of `natCharsAux`, for
injectivity). -/
def charsVal (l : List Char) : Nat :=
  l.foldl (fun a c => 10 * a + (c.toNat - 48)) 0

/-- Propositional form of `@`-freedom for a character list. -/
def NoAtL (l : List Char) : Prop := ∀ c ∈ l, ¬c = '@'

/-- Propositional form of `@`-freedom for a string. -/
def NoAt (s : String) : Prop := NoAtL s.data

/-- A client with no registered array or object fields — the default for a
model that declares no special field handling. -/
def clientNone : ClientFields := { arrayFields := [], objectFields := [] }

/-- The S1 predicate `\x7b"ids": \x7b"$in": ["a","b","c"]\x7d\x7d`. -/
def s1Input : EntryList :=
  .cons "ids" (.vObj (.cons "$in"
    (.vArr (.cons (.vStr "a") (.cons (.vStr "b") (.cons (.vStr "c") .nil)))) .nil)) .nil

/-- The scalar list `["value1","value2","value3"]` of the `$nin` scenario. -/
def ninList : ValueList :=
  .cons (.vStr "value1") (.cons (.vStr "value2") (.cons (.vStr "value3") .nil))

/-- The `$nin` predicate
`\x7b"not_in_field_name": \x7b"$nin": ["value1","value2","value3"]\x7d\x7d`
(the input of `Test_processConditions_NotIn`, definitions.go line 306). -/
def ninInput : EntryList :=
  .cons "not_in_field_name" (.vObj (.cons "$nin" (.vArr ninList) .nil)) .nil

/-- A predicate whose field name itself contains the text `@var0`. -/
def badAtInput : EntryList := .cons "a@var0" (.vStr "x") .nil

theorem varRefsL_nil : varRefsL [] = [] := by
  unfold varRefsL
  rfl

theorem varRefsL_cons_ne (c : Char) (l : List Char) (hc : ¬c = '@') :
    varRefsL (c :: l) = varRefsL l := by
  conv_lhs => unfold varRefsL
  simp [hc]

theorem varRefsL_at (rest : List Char) :
    varRefsL ('@' :: rest) =
      if isVarForm (rest.takeWhile isVarChar) then
        String.mk (rest.takeWhile isVarChar) :: varRefsL (rest.dropWhile isVarChar)
      else varRefsL (rest.dropWhile isVarChar) := by
  conv_lhs => unfold varRefsL
  simp

theorem takeWhile_eq_nil_of_headFail (b : List Char)
    (hb : ∀ c, b.head? = some c → isVarChar c = false) :
    b.takeWhile isVarChar = [] := by
  cases b with
  | nil => rfl
  | cons c rest =>
    have hc := hb c rfl
    simp [List.takeWhile_cons, hc]

theorem dropWhile_eq_self_of_headFail (b : List Char)
    (hb : ∀ c, b.head? = some c → isVarChar c = false) :
    b.dropWhile isVarChar = b := by
  cases b with
  | nil => rfl
  | cons c rest =>
    have hc := hb c rfl
    simp [List.dropWhile_cons, hc]

theorem takeWhile_append_tail_nil (a b : List Char)
    (hb : b.takeWhile isVarChar = []) :
    (a ++ b).takeWhile isVarChar = a.takeWhile isVarChar := by
  induction a with
  | nil => simpa using hb
  | cons c rest ih =>
    by_cases hc : isVarChar c
    · simp [List.takeWhile_cons, hc, ih]
    · simp [List.takeWhile_cons, hc]

theorem dropWhile_append_tail_keep (a b : List Char)
    (hb : b.dropWhile isVarChar = b) :
    (a ++ b).dropWhile isVarChar = a.dropWhile isVarChar ++ b := by
  induction a with
  | nil => simpa using hb
  | cons c rest ih =>
    by_cases hc : isVarChar c
    · simp [List.dropWhile_cons, hc, ih]
    · simp [List.dropWhile_cons, hc]

theorem varRefsL_noAt (l : List Char) (h : ∀ c ∈ l, ¬c = '@') : varRefsL l = [] := by
  induction l with
  | nil => exact varRefsL_nil
  | cons c rest ih =>
    rw [varRefsL_cons_ne c rest (h c (by simp))]
    exact ih (fun c' hc' => h c' (by simp [hc']))

theorem varRefsL_append_noAt (a b : List Char) (h : ∀ c ∈ a, ¬c = '@') :
    varRefsL (a ++ b) = varRefsL b := by
  induction a with
  | nil => simp
  | cons c rest ih =>
    rw [List.cons_append, varRefsL_cons_ne c (rest ++ b) (h c (by simp))]
    exact ih (fun c' hc' => h c' (by simp [hc']))

theorem varRefsL_append (a : List Char) :
    ∀ b : List Char, (∀ c, b.head? = some c → isVarChar c = false) →
      varRefsL (a ++ b) = varRefsL a ++ varRefsL b := by
  induction a using varRefsL.induct with
  | case1 =>
    intro b _
    simp [varRefsL_nil]
  | case2 rest name hform ih =>
    intro b hb
    have ht := takeWhile_append_tail_nil rest b (takeWhile_eq_nil_of_headFail b hb)
    have hd := dropWhile_append_tail_keep rest b (dropWhile_eq_self_of_headFail b hb)
    rw [List.cons_append, varRefsL_at, varRefsL_at, ht, hd]
    rw [if_pos hform, if_pos hform, ih b hb]
    simp
  | case3 rest name hform ih =>
    intro b hb
    have ht := takeWhile_append_tail_nil rest b (takeWhile_eq_nil_of_headFail b hb)
    have hd := dropWhile_append_tail_keep rest b (dropWhile_eq_self_of_headFail b hb)
    rw [List.cons_append, varRefsL_at, varRefsL_at, ht, hd]
    rw [if_neg hform, if_neg hform]
    exact ih b hb
  | case4 c rest hc ih =>
    intro b hb
    rw [List.cons_append, varRefsL_cons_ne c (rest ++ b) hc, varRefsL_cons_ne c rest hc]
    exact ih b hb

theorem varRefsL_at_nonref (rest : List Char)
    (h : ∀ c, rest.head? = some c → isVarChar c = false) :
    varRefsL ('@' :: rest) = varRefsL rest := by
  rw [varRefsL_at, takeWhile_eq_nil_of_headFail rest h, dropWhile_eq_self_of_headFail rest h]
  simp [isVarForm]

theorem varRefsL_ref (nm rest : List Char)
    (h1 : ∀ c ∈ nm, isVarChar c = true) (h2 : isVarForm nm = true)
    (hrest : ∀ c, rest.head? = some c → isVarChar c = false) :
    varRefsL ('@' :: (nm ++ rest)) = String.mk nm :: varRefsL rest := by
  rw [varRefsL_at]
  have ht : (nm ++ rest).takeWhile isVarChar = nm := by
    rw [takeWhile_append_tail_nil nm rest (takeWhile_eq_nil_of_headFail rest hrest)]
    exact List.takeWhile_eq_self_iff.mpr h1
  have hd : (nm ++ rest).dropWhile isVarChar = rest := by
    rw [dropWhile_append_tail_keep nm rest (dropWhile_eq_self_of_headFail rest hrest)]
    rw [List.dropWhile_eq_nil_iff.mpr (fun c hc => h1 c hc), List.nil_append]
  rw [ht, hd, if_pos h2]

theorem digitChar_isDigit (n : Nat) (h : n < 10) : (Nat.digitChar n).isDigit = true := by
  interval_cases n <;> decide

theorem digitChar_val (n : Nat) (h : n < 10) : (Nat.digitChar n).toNat - 48 = n := by
  interval_cases n <;> decide

theorem isVarChar_of_isDigit (c : Char) (h : c.isDigit = true) : isVarChar c = true := by
  simp [isVarChar, Char.isAlphanum, h]

theorem ne_at_of_isDigit (c : Char) (h : c.isDigit = true) : ¬c = '@' := by
  intro he
  subst he
  exact absurd h (by decide)

theorem natCharsAux_digits : ∀ fuel n, ∀ c ∈ natCharsAux fuel n, c.isDigit = true := by
  intro fuel
  induction fuel with
  | zero =>
    intro n c hc
    simp [natCharsAux] at hc
  | succ fuel ih =>
    intro n c hc
    unfold natCharsAux at hc
    by_cases h : n < 10
    · rw [if_pos h] at hc
      simp at hc
      subst hc
      exact digitChar_isDigit n h
    · rw [if_neg h] at hc
      rcases List.mem_append.mp hc with h1 | h1
      · exact ih (n / 10) c h1
      · simp at h1
        subst h1
        exact digitChar_isDigit _ (Nat.mod_lt n (by norm_num))

theorem natCharsAux_ne_nil (fuel n : Nat) : natCharsAux (fuel + 1) n ≠ [] := by
  unfold natCharsAux
  by_cases h : n < 10
  · simp [h]
  · simp [h]

theorem charsVal_append_single (l : List Char) (c : Char) :
    charsVal (l ++ [c]) = 10 * charsVal l + (c.toNat - 48) := by
  unfold charsVal
  rw [List.foldl_append]
  rfl

theorem natCharsAux_val : ∀ fuel n, n < fuel → charsVal (natCharsAux fuel n) = n := by
  intro fuel
  induction fuel with
  | zero =>
    intro n h
    omega
  | succ fuel ih =>
    intro n h
    unfold natCharsAux
    by_cases h10 : n < 10
    · rw [if_pos h10]
      show 10 * 0 + ((Nat.digitChar n).toNat - 48) = n
      rw [digitChar_val n h10]
      omega
    · rw [if_neg h10, charsVal_append_single]
      have hdiv : n / 10 < fuel := by
        have := Nat.div_lt_self (show 0 < n by omega) (show 1 < 10 by norm_num)
        omega
      rw [ih (n / 10) hdiv, digitChar_val _ (Nat.mod_lt n (by norm_num))]
      omega

theorem natRepr_val (n : Nat) : charsVal (natRepr n).data = n := by
  unfold natRepr
  exact natCharsAux_val (n + 1) n (Nat.lt_succ_self n)

theorem natRepr_inj (m n : Nat) (h : (natRepr m).data = (natRepr n).data) : m = n := by
  have h1 := natRepr_val m
  have h2 := natRepr_val n
  rw [h] at h1
  omega

theorem natRepr_digits (n : Nat) : ∀ c ∈ (natRepr n).data, c.isDigit = true := by
  unfold natRepr
  exact natCharsAux_digits (n + 1) n

theorem natRepr_data_ne_nil (n : Nat) : (natRepr n).data ≠ [] := by
  unfold natRepr
  exact natCharsAux_ne_nil n n

theorem varName_data (n : Nat) : (varName n).data = 'v' :: 'a' :: 'r' :: (natRepr n).data := by
  unfold varName
  rfl

theorem varName_isVarForm (n : Nat) : isVarForm (varName n).data = true := by
  rw [varName_data]
  cases hd : (natRepr n).data with
  | nil => exact absurd hd (natRepr_data_ne_nil n)
  | cons c rest =>
    show (!(c :: rest).isEmpty && (c :: rest).all (fun c => c.isDigit)) = true
    have hall : ∀ x ∈ c :: rest, x.isDigit = true := by
      rw [← hd]
      exact natRepr_digits n
    simp [List.all_eq_true.mpr hall]

theorem varName_chars (n : Nat) : ∀ c ∈ (varName n).data, isVarChar c = true := by
  rw [varName_data]
  intro c hc
  rcases hc with _ | ⟨_, _ | ⟨_, _ | ⟨_, hmem⟩⟩⟩
  · decide
  · decide
  · decide
  · exact isVarChar_of_isDigit c (natRepr_digits n c hmem)

theorem varName_noAt (n : Nat) : ∀ c ∈ (varName n).data, ¬c = '@' := by
  rw [varName_data]
  intro c hc
  rcases hc with _ | ⟨_, _ | ⟨_, _ | ⟨_, hmem⟩⟩⟩
  · decide
  · decide
  · decide
  · exact ne_at_of_isDigit c (natRepr_digits n c hmem)

theorem varName_inj (m n : Nat) (h : varName m = varName n) : m = n := by
  have hd := congrArg String.data h
  rw [varName_data, varName_data] at hd
  simp at hd
  exact natRepr_inj m n hd

theorem varSeq_append : ∀ a n b, varSeq n (a + b) = varSeq n a ++ varSeq (n + a) b := by
  intro a
  induction a with
  | zero =>
    intro n b
    simp [varSeq]
  | succ a ih =>
    intro n b
    have h1 : a + 1 + b = (a + b) + 1 := by omega
    rw [h1]
    show varName n :: varSeq (n + 1) (a + b) = (varName n :: varSeq (n + 1) a) ++ varSeq (n + (a + 1)) b
    rw [ih (n + 1) b]
    have h2 : n + 1 + a = n + (a + 1) := by omega
    rw [h2]
    rfl

theorem varSeq_mem : ∀ k n s, s ∈ varSeq n k → ∃ i, n ≤ i ∧ i < n + k ∧ s = varName i := by
  intro k
  induction k with
  | zero =>
    intro n s hs
    simp [varSeq] at hs
  | succ k ih =>
    intro n s hs
    rcases hs with _ | ⟨_, hmem⟩
    · exact ⟨n, Nat.le_refl n, by omega, rfl⟩
    · rcases ih (n + 1) s hmem with ⟨i, h1, h2, h3⟩
      exact ⟨i, by omega, by omega, h3⟩

theorem varSeq_nodup : ∀ k n, (varSeq n k).Nodup := by
  intro k
  induction k with
  | zero =>
    intro n
    simp [varSeq]
  | succ k ih =>
    intro n
    refine List.nodup_cons.mpr ⟨?_, ih (n + 1)⟩
    intro hmem
    rcases varSeq_mem k (n + 1) (varName n) hmem with ⟨i, h1, _, h3⟩
    have := varName_inj n i h3
    omega

theorem noAt_of_noAtStr (s : String) (h : noAtStr s = true) : NoAt s := by
  intro c hc
  have := List.all_eq_true.mp h c hc
  simpa using this

theorem noAtL_append (a b : List Char) (ha : NoAtL a) (hb : NoAtL b) : NoAtL (a ++ b) := by
  intro c hc
  rcases List.mem_append.mp hc with h | h
  · exact ha c h
  · exact hb c h

theorem noAt_append (a b : String) (ha : NoAt a) (hb : NoAt b) : NoAt (a ++ b) := by
  show NoAtL (a ++ b).data
  rw [String.data_append]
  exact noAtL_append a.data b.data ha hb

theorem noAt_append_iff (a b : String) : NoAt (a ++ b) ↔ NoAt a ∧ NoAt b := by
  constructor
  · intro h
    constructor
    · intro c hc
      refine h c ?_
      show c ∈ (a ++ b).data
      rw [String.data_append]
      exact List.mem_append_left _ hc
    · intro c hc
      refine h c ?_
      show c ∈ (a ++ b).data
      rw [String.data_append]
      exact List.mem_append_right _ hc
  · rintro ⟨h1, h2⟩
    exact noAt_append a b h1 h2

theorem noAt_natRepr (n : Nat) : NoAt (natRepr n) := by
  intro c hc
  exact ne_at_of_isDigit c (natRepr_digits n c hc)

theorem noAt_intRepr (n : Int) : NoAt (intRepr n) := by
  unfold intRepr
  by_cases h : n < 0
  · rw [if_pos h]
    exact noAt_append _ _ (noAt_of_noAtStr _ (by decide)) (noAt_natRepr _)
  · rw [if_neg h]
    exact noAt_natRepr _

theorem noAt_pad2 (n : Nat) : NoAt (pad2 n) := by
  unfold pad2
  split
  · exact noAt_append _ _ (noAt_of_noAtStr _ (by decide)) (noAt_natRepr _)
  · exact noAt_natRepr _

theorem noAt_pad3 (n : Nat) : NoAt (pad3 n) := by
  unfold pad3
  split
  · exact noAt_append _ _ (noAt_of_noAtStr _ (by decide)) (noAt_natRepr _)
  · split
    · exact noAt_append _ _ (noAt_of_noAtStr _ (by decide)) (noAt_natRepr _)
    · exact noAt_natRepr _

theorem noAt_pad4 (n : Nat) : NoAt (pad4 n) := by
  unfold pad4
  split
  · exact noAt_append _ _ (noAt_of_noAtStr _ (by decide)) (noAt_natRepr _)
  · split
    · exact noAt_append _ _ (noAt_of_noAtStr _ (by decide)) (noAt_natRepr _)
    · split
      · exact noAt_append _ _ (noAt_of_noAtStr _ (by decide)) (noAt_natRepr _)
      · exact noAt_natRepr _

theorem noAt_zoneSuffix (off : Int) : NoAt (zoneSuffix off) := by
  unfold zoneSuffix
  split
  · exact noAt_of_noAtStr _ (by decide)
  · refine noAt_append _ _ (noAt_append _ _ (noAt_append _ _ ?_ (noAt_pad2 _)) (noAt_of_noAtStr _ (by decide)))
      (noAt_pad2 _)
    split
    · exact noAt_of_noAtStr _ (by decide)
    · exact noAt_of_noAtStr _ (by decide)

theorem noAt_timeFormatMySQL (t : NTime) : NoAt (timeFormatMySQL t) := by
  unfold timeFormatMySQL
  refine noAt_append _ _ ?_ (noAt_pad2 _)
  refine noAt_append _ _ ?_ (noAt_of_noAtStr _ (by decide))
  refine noAt_append _ _ ?_ (noAt_pad2 _)
  refine noAt_append _ _ ?_ (noAt_of_noAtStr _ (by decide))
  refine noAt_append _ _ ?_ (noAt_pad2 _)
  refine noAt_append _ _ ?_ (noAt_of_noAtStr _ (by decide))
  refine noAt_append _ _ ?_ (noAt_pad2 _)
  refine noAt_append _ _ ?_ (noAt_of_noAtStr _ (by decide))
  refine noAt_append _ _ ?_ (noAt_pad2 _)
  refine noAt_append _ _ (noAt_pad4 _) (noAt_of_noAtStr _ (by decide))

theorem noAt_timeFormatPostgreSQL (t : NTime) : NoAt (timeFormatPostgreSQL t) := by
  unfold timeFormatPostgreSQL
  refine noAt_append _ _ ?_ (noAt_zoneSuffix _)
  refine noAt_append _ _ ?_ (noAt_pad2 _)
  refine noAt_append _ _ ?_ (noAt_of_noAtStr _ (by decide))
  refine noAt_append _ _ ?_ (noAt_pad2 _)
  refine noAt_append _ _ ?_ (noAt_of_noAtStr _ (by decide))
  refine noAt_append _ _ ?_ (noAt_pad2 _)
  refine noAt_append _ _ ?_ (noAt_of_noAtStr _ (by decide))
  refine noAt_append _ _ ?_ (noAt_pad2 _)
  refine noAt_append _ _ ?_ (noAt_of_noAtStr _ (by decide))
  refine noAt_append _ _ ?_ (noAt_pad2 _)
  refine noAt_append _ _ (noAt_pad4 _) (noAt_of_noAtStr _ (by decide))

theorem noAt_timeFormatSQLite (t : NTime) : NoAt (timeFormatSQLite t) := by
  unfold timeFormatSQLite
  refine noAt_append _ _ ?_ (noAt_of_noAtStr _ (by decide))
  refine noAt_append _ _ ?_ (noAt_pad3 _)
  refine noAt_append _ _ ?_ (noAt_of_noAtStr _ (by decide))
  refine noAt_append _ _ ?_ (noAt_pad2 _)
  refine noAt_append _ _ ?_ (noAt_of_noAtStr _ (by decide))
  refine noAt_append _ _ ?_ (noAt_pad2 _)
  refine noAt_append _ _ ?_ (noAt_of_noAtStr _ (by decide))
  refine noAt_append _ _ ?_ (noAt_pad2 _)
  refine noAt_append _ _ ?_ (noAt_of_noAtStr _ (by decide))
  refine noAt_append _ _ ?_ (noAt_pad2 _)
  refine noAt_append _ _ ?_ (noAt_of_noAtStr _ (by decide))
  refine noAt_append _ _ ?_ (noAt_pad2 _)
  refine noAt_append _ _ (noAt_pad4 _) (noAt_of_noAtStr _ (by decide))

theorem noAt_padZeros (w n : Nat) : NoAt (padZeros w n) := by
  unfold padZeros
  refine noAt_append _ _ ?_ (noAt_natRepr _)
  intro c hc
  have : c ∈ List.replicate (w - (natRepr n).length) '0' := hc
  rw [List.eq_of_mem_replicate this]
  decide

theorem noAt_timeFormatRFC3339Nano (t : NTime) : NoAt (timeFormatRFC3339Nano t) := by
  unfold timeFormatRFC3339Nano
  refine noAt_append _ _ (noAt_append _ _ ?_ ?_) (noAt_zoneSuffix _)
  · refine noAt_append _ _ ?_ (noAt_pad2 _)
    refine noAt_append _ _ ?_ (noAt_of_noAtStr _ (by decide))
    refine noAt_append _ _ ?_ (noAt_pad2 _)
    refine noAt_append _ _ ?_ (noAt_of_noAtStr _ (by decide))
    refine noAt_append _ _ ?_ (noAt_pad2 _)
    refine noAt_append _ _ ?_ (noAt_of_noAtStr _ (by decide))
    refine noAt_append _ _ ?_ (noAt_pad2 _)
    refine noAt_append _ _ ?_ (noAt_of_noAtStr _ (by decide))
    refine noAt_append _ _ ?_ (noAt_pad2 _)
    refine noAt_append _ _ (noAt_pad4 _) (noAt_of_noAtStr _ (by decide))
  · split
    · exact noAt_of_noAtStr _ (by decide)
    · refine noAt_append _ _ (noAt_of_noAtStr _ (by decide)) ?_
      intro c hc
      have hsub : c ∈ (padZeros 9 t.nanos).data := by
        have h1 : c ∈ ((padZeros 9 t.nanos).data.reverse.dropWhile (fun c => c = '0')).reverse := hc
        rw [List.mem_reverse] at h1
        have h2 := (List.dropWhile_sublist (l := (padZeros 9 t.nanos).data.reverse)
          (p := fun c => c = '0')).mem h1
        rwa [List.mem_reverse] at h2
      exact noAt_padZeros 9 t.nanos c hsub

theorem noAt_escapeDBString (s : String) (hs : NoAt s) : NoAt (escapeDBString s) := by
  intro c hc
  have hc' : c ∈ s.data.flatMap escapeDBStringChar := hc
  rcases List.mem_flatMap.mp hc' with ⟨c0, hc0, hin⟩
  have hcases : c = '\\' ∨ c = '\'' ∨ c = '"' ∨ c = c0 := by
    unfold escapeDBStringChar at hin
    split at hin
    · simp at hin
      tauto
    · split at hin
      · simp at hin
        tauto
      · simp at hin
        tauto
  rcases hcases with h | h | h | h
  · subst h; decide
  · subst h; decide
  · subst h; decide
  · rw [h]; exact hs c0 hc0

theorem noAt_jsonEscape (s : String) (hs : NoAt s) : NoAt (jsonEscape s) := by
  intro c hc
  have hc' : c ∈ s.data.flatMap jsonEscChar := hc
  rcases List.mem_flatMap.mp hc' with ⟨c0, hc0, hin⟩
  have hcases : c = '\\' ∨ c = '"' ∨ c = c0 := by
    unfold jsonEscChar at hin
    split at hin
    · simp at hin
      tauto
    · split at hin
      · simp at hin
        tauto
      · simp at hin
        tauto
  rcases hcases with h | h | h
  · subst h; decide
  · subst h; decide
  · rw [h]; exact hs c0 hc0

theorem noAtStr_of_noAt (s : String) (h : NoAt s) : noAtStr s = true := by
  apply List.all_eq_true.mpr
  intro c hc
  simpa using h c hc

theorem noAt_lit (s : String) (h : noAtStr s = true) : NoAt s := noAt_of_noAtStr s h

mutual
theorem noAt_jsonText (v : Value) (hv : atFreeValue v = true) : NoAt (jsonText v) := by
  match v with
  | .vNull =>
    exact noAt_lit _ (by decide)
  | .vStr s =>
    have hs : NoAt s := noAt_of_noAtStr s (by simpa [atFreeValue] using hv)
    exact noAt_append _ _ (noAt_append _ _ (noAt_lit _ (by decide)) (noAt_jsonEscape s hs))
      (noAt_lit _ (by decide))
  | .vInt n =>
    exact noAt_intRepr n
  | .vBool b =>
    show NoAt (if b then "true" else "false")
    split
    · exact noAt_lit _ (by decide)
    · exact noAt_lit _ (by decide)
  | .vTime t =>
    show NoAt (if t.valid then "\"" ++ timeFormatRFC3339Nano t.time ++ "\"" else "null")
    split
    · exact noAt_append _ _ (noAt_append _ _ (noAt_lit _ (by decide))
        (noAt_timeFormatRFC3339Nano t.time)) (noAt_lit _ (by decide))
    · exact noAt_lit _ (by decide)
  | .vArr vs =>
    have h1 : atFreeValueList vs = true := by simpa [atFreeValue] using hv
    exact noAt_append _ _ (noAt_append _ _ (noAt_lit _ (by decide)) (noAt_jsonTextList vs h1))
      (noAt_lit _ (by decide))
  | .vObj es =>
    have h1 : atFreeEntries es = true := by simpa [atFreeValue] using hv
    exact noAt_append _ _ (noAt_append _ _ (noAt_lit _ (by decide)) (noAt_jsonTextEntries es h1))
      (noAt_lit _ (by decide))

theorem noAt_jsonTextList (vs : ValueList) (hv : atFreeValueList vs = true) :
    NoAt (jsonTextList vs) := by
  match vs with
  | .nil =>
    exact noAt_lit _ (by decide)
  | .cons v .nil =>
    have h0 : (atFreeValue v && atFreeValueList .nil) = true := hv
    rcases Bool.and_eq_true _ _ ▸ h0 with ⟨h1, _⟩
    show NoAt (jsonText v)
    exact noAt_jsonText v h1
  | .cons v (.cons v2 rest) =>
    have h0 : (atFreeValue v && atFreeValueList (.cons v2 rest)) = true := hv
    rcases Bool.and_eq_true _ _ ▸ h0 with ⟨h1, h2⟩
    show NoAt (jsonText v ++ "," ++ jsonTextList (.cons v2 rest))
    exact noAt_append _ _ (noAt_append _ _ (noAt_jsonText v h1) (noAt_lit _ (by decide)))
      (noAt_jsonTextList _ h2)

theorem noAt_jsonTextEntries (es : EntryList) (hv : atFreeEntries es = true) :
    NoAt (jsonTextEntries es) := by
  match es with
  | .nil =>
    exact noAt_lit _ (by decide)
  | .cons k v .nil =>
    have h0 : (noAtStr k && atFreeValue v && atFreeEntries .nil) = true := hv
    rcases Bool.and_eq_true _ _ ▸ h0 with ⟨h01, _⟩
    rcases Bool.and_eq_true _ _ ▸ h01 with ⟨hk, h1⟩
    show NoAt ("\"" ++ jsonEscape k ++ "\":" ++ jsonText v)
    exact noAt_append _ _ (noAt_append _ _ (noAt_append _ _ (noAt_lit _ (by decide))
      (noAt_jsonEscape k (noAt_of_noAtStr k hk))) (noAt_lit _ (by decide)))
      (noAt_jsonText v h1)
  | .cons k v (.cons k2 v2 rest) =>
    have h0 : (noAtStr k && atFreeValue v && atFreeEntries (.cons k2 v2 rest)) = true := hv
    rcases Bool.and_eq_true _ _ ▸ h0 with ⟨h01, h2⟩
    rcases Bool.and_eq_true _ _ ▸ h01 with ⟨hk, h1⟩
    show NoAt ("\"" ++ jsonEscape k ++ "\":" ++ jsonText v ++ "," ++
      jsonTextEntries (.cons k2 v2 rest))
    refine noAt_append _ _ (noAt_append _ _ (noAt_append _ _ (noAt_append _ _ (noAt_append _ _
      (noAt_lit _ (by decide)) (noAt_jsonEscape k (noAt_of_noAtStr k hk)))
      (noAt_lit _ (by decide))) (noAt_jsonText v h1)) (noAt_lit _ (by decide))) ?_
    exact noAt_jsonTextEntries _ h2
end

mutual
theorem atFree_jsonValue (v : Value) (hv : atFreeValue v = true) :
    atFreeValue (jsonValue v) = true := by
  match v with
  | .vNull => exact hv
  | .vStr s => exact hv
  | .vInt n => exact hv
  | .vBool b => exact hv
  | .vTime t =>
    show atFreeValue (if t.valid then .vStr (timeFormatRFC3339Nano t.time) else .vNull) = true
    split
    · show noAtStr (timeFormatRFC3339Nano t.time) = true
      exact noAtStr_of_noAt _ (noAt_timeFormatRFC3339Nano t.time)
    · rfl
  | .vArr vs =>
    have h1 : atFreeValueList vs = true := by simpa [atFreeValue] using hv
    show atFreeValueList (jsonValueList vs) = true
    exact atFree_jsonValueList vs h1
  | .vObj es =>
    have h1 : atFreeEntries es = true := by simpa [atFreeValue] using hv
    show atFreeEntries (jsonValueEntries es) = true
    exact atFree_jsonValueEntries es h1

theorem atFree_jsonValueList (vs : ValueList) (hv : atFreeValueList vs = true) :
    atFreeValueList (jsonValueList vs) = true := by
  match vs with
  | .nil => exact hv
  | .cons v rest =>
    have h0 : (atFreeValue v && atFreeValueList rest) = true := hv
    rcases Bool.and_eq_true _ _ ▸ h0 with ⟨h1, h2⟩
    show (atFreeValue (jsonValue v) && atFreeValueList (jsonValueList rest)) = true
    rw [atFree_jsonValue v h1, atFree_jsonValueList rest h2]
    rfl

theorem atFree_jsonValueEntries (es : EntryList) (hv : atFreeEntries es = true) :
    atFreeEntries (jsonValueEntries es) = true := by
  match es with
  | .nil => exact hv
  | .cons k v rest =>
    have h0 : (noAtStr k && atFreeValue v && atFreeEntries rest) = true := hv
    rcases Bool.and_eq_true _ _ ▸ h0 with ⟨h01, h2⟩
    rcases Bool.and_eq_true _ _ ▸ h01 with ⟨hk, h1⟩
    show (noAtStr k && atFreeValue (jsonValue v) && atFreeEntries (jsonValueEntries rest)) = true
    rw [hk, atFree_jsonValue v h1, atFree_jsonValueEntries rest h2]
    rfl
end

theorem atFree_formatCondition (v : Value) (e : Engine) (hv : atFreeValue v = true) :
    atFreeValue (formatCondition v e) = true := by
  cases v with
  | vTime t =>
    show atFreeValue (if t.valid then _ else Value.vNull) = true
    split
    · split
      · exact noAtStr_of_noAt _ (noAt_timeFormatMySQL t.time)
      · split
        · exact noAtStr_of_noAt _ (noAt_timeFormatPostgreSQL t.time)
        · exact noAtStr_of_noAt _ (noAt_timeFormatSQLite t.time)
    · rfl
  | vNull => exact hv
  | vStr s => exact hv
  | vInt n => exact hv
  | vBool b => exact hv
  | vArr vs => exact hv
  | vObj es => exact hv

theorem noAt_formatCondition_str (v : Value) (e : Engine) (s : String)
    (hv : atFreeValue v = true) (h : formatCondition v e = .vStr s) : NoAt s := by
  have h1 := atFree_formatCondition v e hv
  rw [h] at h1
  exact noAt_of_noAtStr s h1

theorem varRefs_noAt (s : String) (h : NoAt s) : varRefs s = [] := varRefsL_noAt s.data h

theorem flatMap_varRefs_nil (l : List String) (h : ∀ f ∈ l, varRefs f = []) :
    l.flatMap varRefs = [] := by
  induction l with
  | nil => rfl
  | cons s rest ih =>
    rw [List.flatMap_cons, h s (by simp), ih (fun f hf => h f (by simp [hf]))]
    rfl

theorem varRefsL_ref_end (a : List Char) (n : Nat) (ha : NoAtL a) :
    varRefsL (a ++ '@' :: (varName n).data) = [varName n] := by
  rw [varRefsL_append_noAt a _ ha]
  have h := varRefsL_ref (varName n).data [] (varName_chars n) (varName_isVarForm n)
    (by intro c hc; simp at hc)
  rw [List.append_nil] at h
  rw [h, varRefsL_nil]

theorem varRefsL_pg (a b : List Char) (ha : NoAtL a) (hb : NoAtL b) :
    varRefsL (a ++ '@' :: '>' :: b) = [] := by
  rw [varRefsL_append_noAt a _ ha]
  rw [varRefsL_at_nonref ('>' :: b) ?_]
  · rw [varRefsL_cons_ne '>' b (by decide)]
    exact varRefsL_noAt b hb
  · intro c hc
    simp at hc
    subst hc
    decide

theorem varRefs_joinStrs (sep : String) (c0 : Char) (t0 : List Char)
    (hhd : sep.data = c0 :: t0) (hc0 : isVarChar c0 = false) (hsep : NoAt sep) :
    ∀ frags : List String, varRefs (joinStrs sep frags) = frags.flatMap varRefs := by
  intro frags
  induction frags with
  | nil =>
    exact varRefsL_nil
  | cons s rest ih =>
    cases rest with
    | nil =>
      show varRefs s = [s].flatMap varRefs
      simp
    | cons s2 rest2 =>
      have key : varRefs (s ++ sep ++ joinStrs sep (s2 :: rest2)) =
          varRefs s ++ varRefs (joinStrs sep (s2 :: rest2)) := by
        show varRefsL _ = varRefsL s.data ++ varRefsL (joinStrs sep (s2 :: rest2)).data
        rw [String.data_append, String.data_append, List.append_assoc]
        rw [varRefsL_append s.data _ ?_]
        · rw [varRefsL_append_noAt sep.data _ hsep]
        · intro c hc
          rw [hhd] at hc
          simp at hc
          subst hc
          exact hc0
      show varRefs (s ++ sep ++ joinStrs sep (s2 :: rest2)) = _
      rw [key, ih]
      simp [List.flatMap_cons]

theorem inItems_spec (engine : Engine) :
    ∀ (vals : ValueList) (n : Nat), ∃ k : Nat,
      (inItems engine vals n).2.2 = n + k ∧
      (inItems engine vals n).1 = (varSeq n k).map (fun s => "@" ++ s) ∧
      (inItems engine vals n).2.1.map Prod.fst = varSeq n k
  | .nil, n => ⟨0, rfl, rfl, rfl⟩
  | .cons v rest, n => by
    rcases inItems_spec engine rest (n + 1) with ⟨k, h1, h2, h3⟩
    refine ⟨k + 1, ?_, ?_, ?_⟩
    · show (inItems engine rest (n + 1)).2.2 = n + (k + 1)
      rw [h1]
      omega
    · show ("@" ++ varName n) :: (inItems engine rest (n + 1)).1 =
        (varSeq n (k + 1)).map (fun s => "@" ++ s)
      rw [h2]
      rfl
    · show (varName n, formatCondition v engine).1 ::
        (inItems engine rest (n + 1)).2.1.map Prod.fst = varSeq n (k + 1)
      rw [h3]
      rfl

theorem varRefs_inJoin : ∀ (k n : Nat),
    varRefs (joinStrs "," ((varSeq n k).map (fun s => "@" ++ s))) = varSeq n k := by
  intro k
  induction k with
  | zero =>
    intro n
    exact varRefsL_nil
  | succ k ih =>
    intro n
    cases k with
    | zero =>
      show varRefs ("@" ++ varName n) = [varName n]
      show varRefsL ("@" ++ varName n).data = [varName n]
      rw [String.data_append]
      exact varRefsL_ref_end [] n (by intro c hc; simp at hc)
    | succ k' =>
      have key : varRefs (("@" ++ varName n) ++ "," ++
          joinStrs "," ((varSeq (n + 1) (k' + 1)).map (fun s => "@" ++ s))) =
          varName n ::
            varRefs (joinStrs "," ((varSeq (n + 1) (k' + 1)).map (fun s => "@" ++ s))) := by
        show varRefsL _ = _
        rw [String.data_append, String.data_append, String.data_append]
        have h1 : (("@" : String).data ++ (varName n).data ++ ("," : String).data) ++
            (joinStrs "," ((varSeq (n + 1) (k' + 1)).map (fun s => "@" ++ s))).data =
            '@' :: ((varName n).data ++ (',' ::
            (joinStrs "," ((varSeq (n + 1) (k' + 1)).map (fun s => "@" ++ s))).data)) := by
          simp
        rw [h1]
        rw [varRefsL_ref (varName n).data _ (varName_chars n) (varName_isVarForm n)
          (by intro c hc; simp at hc; subst hc; decide)]
        rw [varRefsL_cons_ne ',' _ (by decide)]
        rfl
      show varRefs (("@" ++ varName n) ++ "," ++
          joinStrs "," ((varSeq (n + 1) (k' + 1)).map (fun s => "@" ++ s))) =
        varSeq n (k' + 1 + 1)
      rw [key, ih (n + 1)]
      rfl

theorem varRefs_bindFrag (p mid : String) (n : Nat) (m0 : List Char)
    (hp : NoAt p) (hm : mid.data = m0 ++ ['@']) (hm0 : NoAtL m0) :
    varRefs (p ++ mid ++ varName n) = [varName n] := by
  show varRefsL _ = _
  rw [String.data_append, String.data_append, hm]
  have h1 : (p.data ++ (m0 ++ ['@'])) ++ (varName n).data =
      (p.data ++ m0) ++ '@' :: (varName n).data := by
    simp
  rw [h1]
  exact varRefsL_ref_end (p.data ++ m0) n (noAtL_append _ _ hp hm0)

theorem varRefs_andWrap (frags : List String) :
    varRefs (" ( " ++ joinStrs " AND " frags ++ " ) ") = frags.flatMap varRefs := by
  show varRefsL _ = _
  rw [String.data_append, String.data_append, List.append_assoc]
  rw [varRefsL_append_noAt (" ( " : String).data _ (noAt_lit _ (by decide))]
  rw [varRefsL_append (joinStrs " AND " frags).data (" ) " : String).data
    (by intro c hc; simp at hc; subst hc; decide)]
  rw [varRefsL_noAt (" ) " : String).data (noAt_lit _ (by decide)), List.append_nil]
  exact varRefs_joinStrs " AND " ' ' ("AND " : String).data (by decide) (by decide)
    (noAt_lit _ (by decide)) frags

theorem varRefs_orWrap (stmts : List String) :
    varRefs (" ( (" ++ joinStrs ") OR (" stmts ++ ") ) ") = stmts.flatMap varRefs := by
  show varRefsL _ = _
  rw [String.data_append, String.data_append, List.append_assoc]
  rw [varRefsL_append_noAt (" ( (" : String).data _ (noAt_lit _ (by decide))]
  rw [varRefsL_append (joinStrs ") OR (" stmts).data (") ) " : String).data
    (by intro c hc; simp at hc; subst hc; decide)]
  rw [varRefsL_noAt (") ) " : String).data (noAt_lit _ (by decide)), List.append_nil]
  exact varRefs_joinStrs ") OR (" ')' (" OR (" : String).data (by decide) (by decide)
    (noAt_lit _ (by decide)) stmts

theorem varRefs_inFrag (p : String) (k n : Nat) (hp : NoAt p) :
    varRefs (p ++ " IN (" ++ joinStrs "," ((varSeq n k).map (fun s => "@" ++ s)) ++ ")") =
      varSeq n k := by
  show varRefsL _ = _
  rw [String.data_append, String.data_append, String.data_append, List.append_assoc,
    List.append_assoc]
  rw [varRefsL_append_noAt p.data _ hp]
  rw [varRefsL_append_noAt (" IN (" : String).data _ (noAt_lit _ (by decide))]
  rw [varRefsL_append (joinStrs "," ((varSeq n k).map (fun s => "@" ++ s))).data
    (")" : String).data (by intro c hc; simp at hc; subst hc; decide)]
  rw [varRefsL_noAt (")" : String).data (noAt_lit _ (by decide)), List.append_nil]
  exact varRefs_inJoin k n

theorem varRefs_whereSlice (e : Engine) (k : String) (v : Value) (f : String)
    (hk : NoAt k) (hv : atFreeValue v = true) (h : whereSlice e k v = some f) :
    varRefs f = [] := by
  cases v with
  | vStr s =>
    have hs : NoAt s := noAt_of_noAtStr s (by simpa [atFreeValue] using hv)
    have hf := Option.some.inj h
    subst hf
    by_cases h1 : e = Engine.mySQL
    · rw [if_pos h1]
      apply varRefs_noAt
      simp only [noAt_append_iff, and_assoc]
      repeat' apply And.intro
      all_goals first
        | exact hk
        | exact hs
        | exact noAt_lit _ (by decide)
    · rw [if_neg h1]
      by_cases h2 : e = Engine.postgreSQL
      · rw [if_pos h2]
        show varRefsL _ = []
        have hl : ("::jsonb @> '[\"" : String).data =
            ("::jsonb " : String).data ++ '@' :: '>' :: (" '[\"" : String).data := by decide
        rw [String.data_append, String.data_append, String.data_append, hl]
        have h3 : ((k.data ++ (("::jsonb " : String).data ++ '@' :: '>' ::
            (" '[\"" : String).data)) ++ s.data) ++ ("\"]'" : String).data =
            (k.data ++ ("::jsonb " : String).data) ++ '@' :: '>' ::
            ((" '[\"" : String).data ++ (s.data ++ ("\"]'" : String).data)) := by
          simp
        rw [h3]
        exact varRefsL_pg _ _ (noAtL_append _ _ hk (noAt_lit _ (by decide)))
          (noAtL_append _ _ (noAt_lit _ (by decide))
            (noAtL_append _ _ hs (noAt_lit _ (by decide))))
      · rw [if_neg h2]
        apply varRefs_noAt
        simp only [noAt_append_iff, and_assoc]
        repeat' apply And.intro
        all_goals first
          | exact hk
          | exact hs
          | exact noAt_lit _ (by decide)
  | vNull => simp [whereSlice] at h
  | vInt n => simp [whereSlice] at h
  | vBool b => simp [whereSlice] at h
  | vTime t => simp [whereSlice] at h
  | vArr vs => simp [whereSlice] at h
  | vObj es => simp [whereSlice] at h

theorem noAt_whereObjectNestedParts (k rk : String) :
    ∀ es : EntryList, NoAt k → NoAt rk → atFreeEntries es = true →
      ∀ f ∈ whereObjectNestedParts k rk es, NoAt f
  | .nil => by
    intro _ _ _ f hf
    simp [whereObjectNestedParts] at hf
  | .cons kk vvv rest => by
    intro hk hrk hes f hf
    have h0 : (noAtStr kk && atFreeValue vvv && atFreeEntries rest) = true := hes
    rcases Bool.and_eq_true _ _ ▸ h0 with ⟨h01, h2⟩
    rcases Bool.and_eq_true _ _ ▸ h01 with ⟨hkk, h1⟩
    rcases hf with _ | ⟨_, hf⟩
    · simp only [noAt_append_iff, and_assoc]
      repeat' apply And.intro
      all_goals first
        | exact hk
        | exact hrk
        | exact noAt_of_noAtStr kk hkk
        | exact noAt_jsonText vvv h1
        | exact noAt_lit _ (by decide)
    · exact noAt_whereObjectNestedParts k rk rest hk hrk h2 f hf

theorem noAt_pgRangeValue (v : Value) (hv : atFreeValue v = true) :
    NoAt (pgRangeValue v) := by
  unfold pgRangeValue
  cases v with
  | vStr s =>
    have hs : NoAt s := noAt_of_noAtStr s (by simpa [atFreeValue] using hv)
    simp only [noAt_append_iff, and_assoc]
    repeat' apply And.intro
    all_goals first
      | exact noAt_escapeDBString s hs
      | exact noAt_lit _ (by decide)
  | vNull => exact noAt_jsonText _ hv
  | vInt n => exact noAt_jsonText _ hv
  | vBool b => exact noAt_jsonText _ hv
  | vTime t => exact noAt_jsonText _ hv
  | vArr vs => exact noAt_jsonText _ hv
  | vObj es => exact noAt_jsonText _ hv

theorem varRefs_whereObjectOnePart (e : Engine) (k rk : String) (v : Value)
    (parts : List String) (hk : NoAt k) (hrk : NoAt rk) (hv : atFreeValue v = true)
    (h : whereObjectOnePart e k rk v = some parts) : ∀ f ∈ parts, varRefs f = [] := by
  unfold whereObjectOnePart at h
  by_cases h1 : e = Engine.mySQL ∨ e = Engine.sqlite
  · rw [if_pos h1] at h
    cases v with
    | vStr s =>
      have hs : NoAt s := noAt_of_noAtStr s (by simpa [atFreeValue] using hv)
      have hp := Option.some.inj h
      subst hp
      intro f hf
      rw [List.mem_singleton] at hf
      subst hf
      apply varRefs_noAt
      simp only [noAt_append_iff, and_assoc]
      repeat' apply And.intro
      all_goals first
        | exact hk
        | exact hrk
        | exact noAt_escapeDBString s hs
        | exact noAt_lit _ (by decide)
    | vObj metadata =>
      have hm : atFreeEntries metadata = true := by simpa [atFreeValue] using hv
      have hp := Option.some.inj h
      subst hp
      intro f hf
      exact varRefs_noAt f (noAt_whereObjectNestedParts k rk metadata hk hrk hm f hf)
    | vNull =>
      have hp := Option.some.inj h
      subst hp
      intro f hf
      simp at hf
    | vInt n =>
      have hp := Option.some.inj h
      subst hp
      intro f hf
      simp at hf
    | vBool b =>
      have hp := Option.some.inj h
      subst hp
      intro f hf
      simp at hf
    | vTime t =>
      have hp := Option.some.inj h
      subst hp
      intro f hf
      simp at hf
    | vArr vs =>
      have hp := Option.some.inj h
      subst hp
      intro f hf
      simp at hf
  · rw [if_neg h1] at h
    by_cases h2 : e = Engine.postgreSQL
    · rw [if_pos h2] at h
      have hp := Option.some.inj h
      subst hp
      intro f hf
      rw [List.mem_singleton] at hf
      subst hf
      show varRefsL _ = []
      have hl : ("::jsonb @> '\x7b\"" : String).data =
          ("::jsonb " : String).data ++ '@' :: '>' :: (" '\x7b\"" : String).data := by decide
      rw [String.data_append, String.data_append, String.data_append, String.data_append,
        String.data_append, hl]
      have h3 : ((((k.data ++ (("::jsonb " : String).data ++ '@' :: '>' ::
          (" '\x7b\"" : String).data)) ++ rk.data) ++ ("\":" : String).data) ++
          (pgRangeValue v).data) ++ ("\x7d'::jsonb" : String).data =
          (k.data ++ ("::jsonb " : String).data) ++ '@' :: '>' ::
          ((" '\x7b\"" : String).data ++ (rk.data ++ (("\":" : String).data ++
          ((pgRangeValue v).data ++ ("\x7d'::jsonb" : String).data)))) := by
        simp
      rw [h3]
      refine varRefsL_pg _ _ (noAtL_append _ _ hk (noAt_lit _ (by decide))) ?_
      refine noAtL_append _ _ (noAt_lit _ (by decide)) ?_
      refine noAtL_append _ _ hrk ?_
      refine noAtL_append _ _ (noAt_lit _ (by decide)) ?_
      exact noAtL_append _ _ (noAt_pgRangeValue v hv) (noAt_lit _ (by decide))
    · rw [if_neg h2] at h
      cases v with
      | vStr s =>
        have hs : NoAt s := noAt_of_noAtStr s (by simpa [atFreeValue] using hv)
        have hp := Option.some.inj h
        subst hp
        intro f hf
        rw [List.mem_singleton] at hf
        subst hf
        apply varRefs_noAt
        simp only [noAt_append_iff, and_assoc]
        repeat' apply And.intro
        all_goals first
          | exact hk
          | exact hrk
          | exact noAt_escapeDBString s hs
          | exact noAt_lit _ (by decide)
      | vNull => exact Option.noConfusion h
      | vInt n => simp at h
      | vBool b => exact Option.noConfusion h
      | vTime t => exact Option.noConfusion h
      | vArr vs => simp at h
      | vObj es => exact Option.noConfusion h

theorem varRefs_whereObjectParts (e : Engine) (k : String) :
    ∀ (es : EntryList) (parts : List String), NoAt k → atFreeEntries es = true →
      whereObjectParts e k es = some parts → ∀ f ∈ parts, varRefs f = []
  | .nil, parts => by
    intro _ _ h f hf
    have hp := Option.some.inj h
    subst hp
    simp at hf
  | .cons rangeKey rangeValue rest, parts => by
    intro hk hes h f hf
    have h0 : (noAtStr rangeKey && atFreeValue rangeValue && atFreeEntries rest) = true := hes
    rcases Bool.and_eq_true _ _ ▸ h0 with ⟨h01, h2⟩
    rcases Bool.and_eq_true _ _ ▸ h01 with ⟨hrk, h1⟩
    unfold whereObjectParts at h
    cases hone : whereObjectOnePart e k rangeKey rangeValue with
    | none => rw [hone] at h; exact absurd h (by simp)
    | some parts1 =>
      rw [hone] at h
      cases hrest : whereObjectParts e k rest with
      | none => rw [hrest] at h; exact absurd h (by simp)
      | some ps =>
        rw [hrest] at h
        have hp := Option.some.inj h
        subst hp
        rcases List.mem_append.mp hf with hf1 | hf1
        · exact varRefs_whereObjectOnePart e k rangeKey rangeValue parts1 hk
            (noAt_of_noAtStr _ hrk) h1 hone f hf1
        · exact varRefs_whereObjectParts e k rest ps hk h2 hrest f hf1

theorem varRefs_whereObject (e : Engine) (k : String) (v : Value) (f : String)
    (hk : NoAt k) (hv : atFreeValue v = true) (h : whereObject e k v = some f) :
    varRefs f = [] := by
  have hes : atFreeEntries (jsonNormalizeEntries v) = true := by
    unfold jsonNormalizeEntries
    have h1 := atFree_jsonValue v hv
    cases hjv : jsonValue v with
    | vObj es => rw [hjv] at h1; exact h1
    | vNull => rfl
    | vStr s => rfl
    | vInt n => rfl
    | vBool b => rfl
    | vTime t => rfl
    | vArr vs => rfl
  unfold whereObject at h
  cases hp : whereObjectParts e k (jsonNormalizeEntries v) with
  | none => rw [hp] at h; exact absurd h (by simp)
  | some parts =>
    rw [hp] at h
    have hmem := varRefs_whereObjectParts e k (jsonNormalizeEntries v) parts hk hes hp
    match parts, h with
    | [], h =>
      have hf := Option.some.inj h
      subst hf
      exact varRefs_noAt _ (noAt_lit _ (by decide))
    | [q], h =>
      have hf := Option.some.inj h
      subst hf
      exact hmem q (by simp)
    | q1 :: q2 :: qs, h =>
      have hf := Option.some.inj h
      subst hf
      show varRefsL _ = []
      rw [String.data_append, String.data_append, List.append_assoc]
      rw [varRefsL_append_noAt ("(" : String).data _ (noAt_lit _ (by decide))]
      rw [varRefsL_append (joinStrs " AND " (q1 :: q2 :: qs)).data (")" : String).data
        (by intro c hc; simp at hc; subst hc; decide)]
      rw [varRefsL_noAt (")" : String).data (noAt_lit _ (by decide)), List.append_nil]
      have hj := varRefs_joinStrs " AND " ' ' ("AND " : String).data (by decide) (by decide)
        (noAt_lit _ (by decide)) (q1 :: q2 :: qs)
      have hz := flatMap_varRefs_nil (q1 :: q2 :: qs) hmem
      rw [show varRefsL (joinStrs " AND " (q1 :: q2 :: qs)).data =
        varRefs (joinStrs " AND " (q1 :: q2 :: qs)) from rfl, hj, hz]

theorem varSeq_glue (n n1 n2 : Nat) (h1 : n ≤ n1) (h2 : n1 ≤ n2) :
    varSeq n (n1 - n) ++ varSeq n1 (n2 - n1) = varSeq n (n2 - n) := by
  have h := varSeq_append (n1 - n) n (n2 - n1)
  rw [show n + (n1 - n) = n1 by omega] at h
  rw [show (n1 - n) + (n2 - n1) = n2 - n by omega] at h
  exact h.symm

theorem emit_inj {f1 : List String} {b1 : List (String × Value)} {m1 : Nat}
    {f2 : List String} {b2 : List (String × Value)} {m2 : Nat}
    (h : (some ((f1, b1), m1) : Option (Emit × Nat)) = some ((f2, b2), m2)) :
    f1 = f2 ∧ b1 = b2 ∧ m1 = m2 := by
  injection h with h1
  injection h1 with h2 h3
  injection h2 with h4 h5
  exact ⟨h4, h5, h3⟩

theorem varSeq_one (n : Nat) : varSeq n (n + 1 - n) = [varName n] := by
  rw [show n + 1 - n = 1 by omega]
  rfl

theorem varSeq_zero (n : Nat) : varSeq n (n - n) = [] := by
  rw [show n - n = 0 by omega]
  rfl

theorem flatMap_varRefs_singleton (f : String) : [f].flatMap varRefs = varRefs f := by
  simp only [List.flatMap_cons, List.flatMap_nil, List.append_nil]

theorem emitCompare_vars (engine : Engine) (op : String) (condition : Value) (n : Nat)
    (pk : Option String) (frags : List String) (binds : List (String × Value)) (n' : Nat)
    (m0 : List Char) (hop : op.data = m0 ++ ['@']) (hm0 : NoAtL m0)
    (hpk : atFreeParent pk = true)
    (h : emitCompare engine op condition n pk = some ((frags, binds), n')) :
    n ≤ n' ∧ frags.flatMap varRefs = varSeq n (n' - n) ∧
      binds.map Prod.fst = varSeq n (n' - n) := by
  unfold emitCompare at h
  split at h
  · exact Option.noConfusion h
  next p =>
    have hp : NoAt p := noAt_of_noAtStr p hpk
    rcases emit_inj h with ⟨hf, hb, hn⟩
    subst hf
    subst hb
    subst hn
    refine ⟨by omega, ?_, ?_⟩
    · rw [flatMap_varRefs_singleton, varRefs_bindFrag p op n m0 hp hop hm0, varSeq_one n]
    · rw [varSeq_one n]
      rfl

theorem emitExists_vars (condition : Value) (n : Nat) (pk : Option String)
    (frags : List String) (binds : List (String × Value)) (n' : Nat)
    (hpk : atFreeParent pk = true)
    (h : emitExists condition n pk = some ((frags, binds), n')) :
    n ≤ n' ∧ frags.flatMap varRefs = varSeq n (n' - n) ∧
      binds.map Prod.fst = varSeq n (n' - n) := by
  unfold emitExists at h
  split at h
  · exact Option.noConfusion h
  next p =>
    have hp : NoAt p := noAt_of_noAtStr p hpk
    split at h
    next b =>
      cases b with
      | true =>
        rw [if_pos rfl] at h
        rcases emit_inj h with ⟨hf, hb, hn⟩
        subst hf
        subst hb
        subst hn
        refine ⟨Nat.le_refl n, ?_, by simp [varSeq_zero, varSeq]⟩
        rw [varSeq_zero, flatMap_varRefs_singleton]
        exact varRefs_noAt _ (noAt_append _ _ hp (noAt_lit _ (by decide)))
      | false =>
        rw [if_neg (by simp)] at h
        rcases emit_inj h with ⟨hf, hb, hn⟩
        subst hf
        subst hb
        subst hn
        refine ⟨Nat.le_refl n, ?_, by simp [varSeq_zero, varSeq]⟩
        rw [varSeq_zero, flatMap_varRefs_singleton]
        exact varRefs_noAt _ (noAt_append _ _ hp (noAt_lit _ (by decide)))
    next hne =>
      exact Option.noConfusion h

theorem emitIn_vars (engine : Engine) (condition : Value) (n : Nat) (pk : Option String)
    (frags : List String) (binds : List (String × Value)) (n' : Nat)
    (hpk : atFreeParent pk = true)
    (h : emitIn engine condition n pk = some ((frags, binds), n')) :
    n ≤ n' ∧ frags.flatMap varRefs = varSeq n (n' - n) ∧
      binds.map Prod.fst = varSeq n (n' - n) := by
  unfold emitIn at h
  split at h
  next vals =>
    split at h
    · exact Option.noConfusion h
    next p =>
      have hp : NoAt p := noAt_of_noAtStr p hpk
      rcases emit_inj h with ⟨hf, hb, hn⟩
      subst hf
      subst hb
      rcases inItems_spec engine vals n with ⟨k, hk1, hk2, hk3⟩
      refine ⟨by omega, ?_, ?_⟩
      · rw [flatMap_varRefs_singleton, hk2, varRefs_inFrag p k n hp,
          show n' - n = k by omega]
      · rw [hk3, show n' - n = k by omega]
  next hne =>
    exact Option.noConfusion h

theorem emitArrayField_vars (engine : Engine) (key : String) (condition : Value) (n : Nat)
    (frags : List String) (binds : List (String × Value)) (n' : Nat)
    (hkey : noAtStr key = true) (hcond : atFreeValue condition = true)
    (h : emitArrayField engine key condition n = some ((frags, binds), n')) :
    n ≤ n' ∧ frags.flatMap varRefs = varSeq n (n' - n) ∧
      binds.map Prod.fst = varSeq n (n' - n) := by
  unfold emitArrayField at h
  split at h
  · simp at h
  next f heq =>
    rcases emit_inj h with ⟨hf, hb, hn⟩
    subst hf
    subst hb
    subst hn
    refine ⟨Nat.le_refl n, ?_, by simp [varSeq_zero, varSeq]⟩
    rw [varSeq_zero, flatMap_varRefs_singleton]
    exact varRefs_whereSlice engine key (formatCondition condition engine) f
      (noAt_of_noAtStr key hkey) (atFree_formatCondition condition engine hcond) heq

theorem emitObjectField_vars (engine : Engine) (key : String) (condition : Value) (n : Nat)
    (frags : List String) (binds : List (String × Value)) (n' : Nat)
    (hkey : noAtStr key = true) (hcond : atFreeValue condition = true)
    (h : emitObjectField engine key condition n = some ((frags, binds), n')) :
    n ≤ n' ∧ frags.flatMap varRefs = varSeq n (n' - n) ∧
      binds.map Prod.fst = varSeq n (n' - n) := by
  unfold emitObjectField at h
  split at h
  · simp at h
  next f heq =>
    rcases emit_inj h with ⟨hf, hb, hn⟩
    subst hf
    subst hb
    subst hn
    refine ⟨Nat.le_refl n, ?_, by simp [varSeq_zero, varSeq]⟩
    rw [varSeq_zero, flatMap_varRefs_singleton]
    exact varRefs_whereObject engine key (formatCondition condition engine) f
      (noAt_of_noAtStr key hkey) (atFree_formatCondition condition engine hcond) heq

theorem processConditionEntry_eq (client : ClientFields) (engine : Engine) (key : String)
    (condition : Value) (varNum : Nat) (parentKey : Option String) :
    processConditionEntry client engine key condition varNum parentKey =
      (if key = conditionAnd then
        match condition with
        | .vArr elems => wrapAndEmit (processWhereAndList client engine elems varNum)
        | _ => Option.none
      else if key = conditionOr then
        match condition with
        | .vArr elems => wrapOrEmit (processWhereOrList client engine elems varNum)
        | _ => Option.none
      else if key = conditionGreaterThan then
        emitCompare engine " > @" condition varNum parentKey
      else if key = conditionLessThan then
        emitCompare engine " < @" condition varNum parentKey
      else if key = conditionGreaterThanOrEqual then
        emitCompare engine " >= @" condition varNum parentKey
      else if key = conditionLessThanOrEqual then
        emitCompare engine " <= @" condition varNum parentKey
      else if key = conditionNotEquals then
        emitCompare engine " != @" condition varNum parentKey
      else if key = conditionExists then
        emitExists condition varNum parentKey
      else if key = conditionIn then
        emitIn engine condition varNum parentKey
      else if key ∈ client.arrayFields then
        emitArrayField engine key condition varNum
      else if key ∈ client.objectFields then
        emitObjectField engine key condition varNum
      else
        match condition with
        | .vNull => some (([key ++ " IS NULL"], []), varNum)
        | .vObj m => processConditions client engine m varNum (some key)
        | c =>
          some (([key ++ " = @" ++ varName varNum],
            [(varName varNum, formatCondition c engine)]), varNum + 1)) := by
  cases condition <;> rfl

mutual
/-- Master invariant of the condition compiler: on an `@`-free condition
tree, a successful run starting at counter `n` ends at some `n' ≥ n`, the
`@varN` references of the emitted fragments are exactly `var<n> … var<n'-1>`
in order, and the bind map binds exactly those names. -/
theorem processConditions_vars (client : ClientFields) (engine : Engine) :
    ∀ (conds : EntryList) (n : Nat) (pk : Option String) (frags : List String)
      (binds : List (String × Value)) (n' : Nat),
      atFreeEntries conds = true → atFreeParent pk = true →
      processConditions client engine conds n pk = some ((frags, binds), n') →
      n ≤ n' ∧ frags.flatMap varRefs = varSeq n (n' - n) ∧
        binds.map Prod.fst = varSeq n (n' - n)
  | .nil => by
    intro n pk frags binds n' _ _ h
    unfold processConditions at h
    rcases emit_inj h with ⟨hf, hb, hn⟩
    subst hf
    subst hb
    subst hn
    exact ⟨Nat.le_refl n, by simp [varSeq_zero, varSeq], by simp [varSeq_zero, varSeq]⟩
  | .cons key condition rest => by
    intro n pk frags binds n' hfree hpk h
    have h0 : (noAtStr key && atFreeValue condition && atFreeEntries rest) = true := hfree
    rcases Bool.and_eq_true _ _ ▸ h0 with ⟨h01, hrest⟩
    rcases Bool.and_eq_true _ _ ▸ h01 with ⟨hkey, hcond⟩
    unfold processConditions at h
    split at h
    · simp at h
    next e1 n1 heq =>
      split at h
      · simp at h
      next e2 n2 heq2 =>
        rcases emit_inj h with ⟨hf, hb, hn⟩
        subst hf
        subst hb
        subst hn
        rcases processConditionEntry_vars client engine key condition n pk e1.1 e1.2 n1
          hkey hcond hpk heq with ⟨hle1, hf1, hb1⟩
        rcases processConditions_vars client engine rest n1 pk e2.1 e2.2 n2 hrest hpk
          heq2 with ⟨hle2, hf2, hb2⟩
        refine ⟨by omega, ?_, ?_⟩
        · rw [List.flatMap_append, hf1, hf2]
          exact varSeq_glue n n1 n2 hle1 hle2
        · rw [List.map_append, hb1, hb2]
          exact varSeq_glue n n1 n2 hle1 hle2

/-- Master invariant, entry case: one `(key, condition)` entry emits
fragments referencing exactly the variables it allocates, all bound. -/
theorem processConditionEntry_vars (client : ClientFields) (engine : Engine) :
    ∀ (key : String) (condition : Value) (n : Nat) (pk : Option String)
      (frags : List String) (binds : List (String × Value)) (n' : Nat),
      noAtStr key = true → atFreeValue condition = true → atFreeParent pk = true →
      processConditionEntry client engine key condition n pk = some ((frags, binds), n') →
      n ≤ n' ∧ frags.flatMap varRefs = varSeq n (n' - n) ∧
        binds.map Prod.fst = varSeq n (n' - n)
  | key, condition => by
    intro n pk frags binds n' hkey hcond hpk h
    rw [processConditionEntry_eq] at h
    by_cases hAnd : key = conditionAnd
    · rw [if_pos hAnd] at h
      split at h
      next elems =>
        unfold wrapAndEmit at h
        split at h
        · exact Option.noConfusion h
        next frags0 binds0 n1 heq =>
          rcases emit_inj h with ⟨hf, hb, hn⟩
          subst hf
          subst hb
          subst hn
          rcases processWhereAndList_vars client engine elems n frags0 binds0 n1
            (by simpa [atFreeValue] using hcond) heq with ⟨hle, hf1, hb1⟩
          refine ⟨hle, ?_, hb1⟩
          rw [flatMap_varRefs_singleton, varRefs_andWrap frags0, hf1]
      all_goals exact Option.noConfusion h
    · rw [if_neg hAnd] at h
      by_cases hOr : key = conditionOr
      · rw [if_pos hOr] at h
        split at h
        next elems =>
          unfold wrapOrEmit at h
          split at h
          · exact Option.noConfusion h
          next stmts0 binds0 n1 heq =>
            rcases emit_inj h with ⟨hf, hb, hn⟩
            subst hf
            subst hb
            subst hn
            rcases processWhereOrList_vars client engine elems n stmts0 binds0 n1
              (by simpa [atFreeValue] using hcond) heq with ⟨hle, hf1, hb1⟩
            refine ⟨hle, ?_, hb1⟩
            rw [flatMap_varRefs_singleton, varRefs_orWrap stmts0, hf1]
        all_goals exact Option.noConfusion h
      · rw [if_neg hOr] at h
        by_cases hGt : key = conditionGreaterThan
        · rw [if_pos hGt] at h
          exact emitCompare_vars engine " > @" condition n pk frags binds n'
            (" > " : String).data (by decide) (noAt_lit _ (by decide)) hpk h
        · rw [if_neg hGt] at h
          by_cases hLt : key = conditionLessThan
          · rw [if_pos hLt] at h
            exact emitCompare_vars engine " < @" condition n pk frags binds n'
              (" < " : String).data (by decide) (noAt_lit _ (by decide)) hpk h
          · rw [if_neg hLt] at h
            by_cases hGte : key = conditionGreaterThanOrEqual
            · rw [if_pos hGte] at h
              exact emitCompare_vars engine " >= @" condition n pk frags binds n'
                (" >= " : String).data (by decide) (noAt_lit _ (by decide)) hpk h
            · rw [if_neg hGte] at h
              by_cases hLte : key = conditionLessThanOrEqual
              · rw [if_pos hLte] at h
                exact emitCompare_vars engine " <= @" condition n pk frags binds n'
                  (" <= " : String).data (by decide) (noAt_lit _ (by decide)) hpk h
              · rw [if_neg hLte] at h
                by_cases hNe : key = conditionNotEquals
                · rw [if_pos hNe] at h
                  exact emitCompare_vars engine " != @" condition n pk frags binds n'
                    (" != " : String).data (by decide) (noAt_lit _ (by decide)) hpk h
                · rw [if_neg hNe] at h
                  by_cases hEx : key = conditionExists
                  · rw [if_pos hEx] at h
                    exact emitExists_vars condition n pk frags binds n' hpk h
                  · rw [if_neg hEx] at h
                    by_cases hIn : key = conditionIn
                    · rw [if_pos hIn] at h
                      exact emitIn_vars engine condition n pk frags binds n' hpk h
                    · rw [if_neg hIn] at h
                      by_cases hArr : key ∈ client.arrayFields
                      · rw [if_pos hArr] at h
                        exact emitArrayField_vars engine key condition n frags binds n'
                          hkey hcond h
                      · rw [if_neg hArr] at h
                        by_cases hObj : key ∈ client.objectFields
                        · rw [if_pos hObj] at h
                          exact emitObjectField_vars engine key condition n frags binds n'
                            hkey hcond h
                        · rw [if_neg hObj] at h
                          split at h
                          next =>
                            rcases emit_inj h with ⟨hf, hb, hn⟩
                            subst hf
                            subst hb
                            subst hn
                            refine ⟨Nat.le_refl n, ?_, by simp [varSeq_zero, varSeq]⟩
                            rw [varSeq_zero, flatMap_varRefs_singleton]
                            exact varRefs_noAt _ (noAt_append _ _ (noAt_of_noAtStr key hkey)
                              (noAt_lit _ (by decide)))
                          next m =>
                            exact processConditions_vars client engine m n (some key)
                              frags binds n' (by simpa [atFreeValue] using hcond) hkey h
                          all_goals
                            rcases emit_inj h with ⟨hf, hb, hn⟩
                            subst hf
                            subst hb
                            subst hn
                            refine ⟨by omega, ?_, ?_⟩
                            · rw [flatMap_varRefs_singleton, varRefs_bindFrag key " = @" n
                                (" = " : String).data (noAt_of_noAtStr key hkey) (by decide)
                                (noAt_lit _ (by decide)), varSeq_one n]
                            · rw [varSeq_one n]
                              rfl

/-- Master invariant, `$and` element list: the sub-accumulators together
cover exactly the allocated range. -/
theorem processWhereAndList_vars (client : ClientFields) (engine : Engine) :
    ∀ (elems : ValueList) (n : Nat) (frags : List String)
      (binds : List (String × Value)) (n' : Nat),
      atFreeValueList elems = true →
      processWhereAndList client engine elems n = some ((frags, binds), n') →
      n ≤ n' ∧ frags.flatMap varRefs = varSeq n (n' - n) ∧
        binds.map Prod.fst = varSeq n (n' - n)
  | .nil => by
    intro n frags binds n' _ h
    unfold processWhereAndList at h
    rcases emit_inj h with ⟨hf, hb, hn⟩
    subst hf
    subst hb
    subst hn
    exact ⟨Nat.le_refl n, by simp [varSeq_zero, varSeq], by simp [varSeq_zero, varSeq]⟩
  | .cons (.vObj m) rest => by
    intro n frags binds n' hfree h
    have h0 : (atFreeValue (.vObj m) && atFreeValueList rest) = true := hfree
    rcases Bool.and_eq_true _ _ ▸ h0 with ⟨hm, hrest⟩
    unfold processWhereAndList at h
    split at h
    · exact Option.noConfusion h
    next x1 e1 n1 heq =>
      split at h
      · exact Option.noConfusion h
      next x2 e2 n2 heq2 =>
        rcases emit_inj h with ⟨hf, hb, hn⟩
        subst hf
        subst hb
        subst hn
        rcases processConditions_vars client engine m n Option.none e1.1 e1.2 n1
          (by simpa [atFreeValue] using hm) rfl heq with ⟨hle1, hf1, hb1⟩
        rcases processWhereAndList_vars client engine rest n1 e2.1 e2.2 n2 hrest
          heq2 with ⟨hle2, hf2, hb2⟩
        refine ⟨by omega, ?_, ?_⟩
        · rw [List.flatMap_append, hf1, hf2]
          exact varSeq_glue n n1 n2 hle1 hle2
        · rw [List.map_append, hb1, hb2]
          exact varSeq_glue n n1 n2 hle1 hle2
  | .cons .vNull rest => by
    intro n frags binds n' _ h
    exact Option.noConfusion h
  | .cons (.vStr s) rest => by
    intro n frags binds n' _ h
    exact Option.noConfusion h
  | .cons (.vInt m) rest => by
    intro n frags binds n' _ h
    exact Option.noConfusion h
  | .cons (.vBool b) rest => by
    intro n frags binds n' _ h
    exact Option.noConfusion h
  | .cons (.vTime t) rest => by
    intro n frags binds n' _ h
    exact Option.noConfusion h
  | .cons (.vArr vs) rest => by
    intro n frags binds n' _ h
    exact Option.noConfusion h

/-- Master invariant, `$or` element list: each element's joined statement
references exactly its allocated variables; together they cover the range
and every reference is bound. -/
theorem processWhereOrList_vars (client : ClientFields) (engine : Engine) :
    ∀ (elems : ValueList) (n : Nat) (stmts : List String)
      (binds : List (String × Value)) (n' : Nat),
      atFreeValueList elems = true →
      processWhereOrList client engine elems n = some ((stmts, binds), n') →
      n ≤ n' ∧ stmts.flatMap varRefs = varSeq n (n' - n) ∧
        binds.map Prod.fst = varSeq n (n' - n)
  | .nil => by
    intro n stmts binds n' _ h
    unfold processWhereOrList at h
    rcases emit_inj h with ⟨hf, hb, hn⟩
    subst hf
    subst hb
    subst hn
    exact ⟨Nat.le_refl n, by simp [varSeq_zero, varSeq], by simp [varSeq_zero, varSeq]⟩
  | .cons (.vObj m) rest => by
    intro n stmts binds n' hfree h
    have h0 : (atFreeValue (.vObj m) && atFreeValueList rest) = true := hfree
    rcases Bool.and_eq_true _ _ ▸ h0 with ⟨hm, hrest⟩
    unfold processWhereOrList at h
    split at h
    · exact Option.noConfusion h
    next f1 b1 n1 heq =>
      split at h
      · exact Option.noConfusion h
      next s2 b2 n2 heq2 =>
        rcases emit_inj h with ⟨hf, hb, hn⟩
        subst hf
        subst hb
        subst hn
        rcases processConditions_vars client engine m n Option.none f1 b1 n1
          (by simpa [atFreeValue] using hm) rfl heq with ⟨hle1, hf1, hb1⟩
        rcases processWhereOrList_vars client engine rest n1 s2 b2 n2 hrest
          heq2 with ⟨hle2, hf2, hb2⟩
        refine ⟨by omega, ?_, ?_⟩
        · rw [List.flatMap_cons]
          rw [varRefs_joinStrs " AND " ' ' ("AND " : String).data (by decide) (by decide)
            (noAt_lit _ (by decide)) f1]
          rw [hf1, hf2]
          exact varSeq_glue n n1 n2 hle1 hle2
        · rw [List.map_append, hb1, hb2]
          exact varSeq_glue n n1 n2 hle1 hle2
  | .cons .vNull rest => by
    intro n stmts binds n' _ h
    exact Option.noConfusion h
  | .cons (.vStr s) rest => by
    intro n stmts binds n' _ h
    exact Option.noConfusion h
  | .cons (.vInt m) rest => by
    intro n stmts binds n' _ h
    exact Option.noConfusion h
  | .cons (.vBool b) rest => by
    intro n stmts binds n' _ h
    exact Option.noConfusion h
  | .cons (.vTime t) rest => by
    intro n stmts binds n' _ h
    exact Option.noConfusion h
  | .cons (.vArr vs) rest => by
    intro n stmts binds n' _ h
    exact Option.noConfusion h
end

/-- The references of the fragment compiled for the `@`-tainted field name
`a@var0`: the key text and the allocated variable both read `@var0`. -/
theorem varRefs_badFrag : varRefs "a@var0 = @var0" = ["var0", "var0"] := by
  have hd : ("a@var0 = @var0" : String).data =
      'a' :: '@' :: ['v', 'a', 'r', '0', ' ', '=', ' ', '@', 'v', 'a', 'r', '0'] := rfl
  rw [varRefs, hd, varRefsL_cons_ne _ _ (by decide), varRefsL_at]
  rw [show (['v', 'a', 'r', '0', ' ', '=', ' ', '@', 'v', 'a', 'r', '0'].takeWhile isVarChar) =
    ['v', 'a', 'r', '0'] from rfl]
  rw [show (['v', 'a', 'r', '0', ' ', '=', ' ', '@', 'v', 'a', 'r', '0'].dropWhile isVarChar) =
    [' ', '=', ' ', '@', 'v', 'a', 'r', '0'] from rfl]
  rw [if_pos (show isVarForm ['v', 'a', 'r', '0'] = true from rfl)]
  rw [varRefsL_cons_ne _ _ (by decide), varRefsL_cons_ne _ _ (by decide),
    varRefsL_cons_ne _ _ (by decide), varRefsL_at]
  rw [show (['v', 'a', 'r', '0'].takeWhile isVarChar) = ['v', 'a', 'r', '0'] from rfl]
  rw [show (['v', 'a', 'r', '0'].dropWhile isVarChar) = ([] : List Char) from rfl]
  rw [if_pos (show isVarForm ['v', 'a', 'r', '0'] = true from rfl)]
  rw [varRefsL_nil]

/-- C1: the condition compiler has no `$nin` branch.  On the predicate
`{"not_in_field_name": {"$nin": ["value1","value2","value3"]}}` it falls
through to the bare-field fallback: it emits the literal fragment
`$nin = @var0` binding the whole list to the single variable `var0` (final
counter 1), not the claimed `not_in_field_name NOT IN (@var0,@var1,@var2)`
with one variable per element (final counter 3). -/
theorem C1_nin_emits_bare_binding :
    CustomWhere clientNone .mySQL ninInput =
      some ((["$nin = @var0"], [("var0", .vArr ninList)]), 1) ∧
    ("$nin = @var0" : String) ≠ "not_in_field_name NOT IN (@var0,@var1,@var2)" :=
  ⟨rfl, by decide⟩

/-- C3: `IncrementModel` on a missing row.  GORM `First` raises
`ErrRecordNotFound` when no row matches, so the increment returns that error
instead of the claimed `newValue = delta` with no error (the `result == nil`
branch that would treat the current value as 0 is unreachable). -/
theorem C3_increment_missing_row_returns_error :
    IncrementModel (some "new") (fun _ => Option.none) "counter" 5 =
      some (.error .recordNotFound) ∧
    IncrementModel (some "new") (fun _ => Option.none) "counter" 5 ≠
      some (.ok (5, Option.none)) :=
  ⟨rfl, fun h => Except.noConfusion (Option.some.inj h)⟩

/-- C9: the no-op transaction handed out when no database is configured (both
backend handles absent): `Commit` returns no error and leaves the committed
flag false, `Rollback` returns no error and releases nothing, and `CanCommit`
is false before and after `Commit`. -/
theorem C9_empty_transaction_noops :
    ∀ (sqlErr : Option DriverErr) (sqlRows : Int) (mongoErr mongoAbortErr : Option DriverErr),
      emptyTransaction.Commit sqlErr sqlRows mongoErr = (emptyTransaction, Option.none, []) ∧
      emptyTransaction.Rollback mongoAbortErr = (Option.none, []) ∧
      emptyTransaction.CanCommit = false ∧
      (emptyTransaction.Commit sqlErr sqlRows mongoErr).1.CanCommit = false ∧
      (emptyTransaction.Commit sqlErr sqlRows mongoErr).1.committed = false :=
  fun _ _ _ _ => ⟨rfl, rfl, rfl, rfl, rfl⟩

/-- C7: the bind value for a valid nullable-timestamp predicate is the
engine-specific stringification the spec promises (MySQL
`YYYY-MM-DD HH:MM:SS`; PostgreSQL `YYYY-MM-DDTHH:MM:SSZ07:00`; SQLite and
any other engine `YYYY-MM-DDTHH:MM:SS.000Z`), and an invalid nullable
timestamp becomes the predicate value null. -/
theorem C7_timestamp_formats :
    ∀ (engine : Engine) (t : NTime),
      formatCondition (.vTime { valid := true, time := t }) engine =
        .vStr (specTimestampBind engine t) ∧
      formatCondition (.vTime { valid := false, time := t }) engine = .vNull := by
  intro engine t
  refine ⟨?_, rfl⟩
  cases engine <;>
    simp [formatCondition, specTimestampBind, timeFormatMySQL, timeFormatPostgreSQL,
      timeFormatSQLite, String.append_assoc]

/-- C2: a transaction commits at most once.  For a transaction that can
commit (open, with a backend handle), a `Commit` that returns no error sets
the committed flag; from then on `CanCommit` is false and every further
`Commit` is a no-op returning success with the state unchanged and no driver
calls. -/
theorem C2_commit_at_most_once :
    ∀ (tx : Transaction) (sqlErr : Option DriverErr) (sqlRows : Int)
      (mongoErr : Option DriverErr) (tx1 : Transaction) (calls : List DriverCall),
      tx.CanCommit = true →
      tx.Commit sqlErr sqlRows mongoErr = (tx1, Option.none, calls) →
      tx1.committed = true ∧ tx1.CanCommit = false ∧
        ∀ (sqlErr2 : Option DriverErr) (sqlRows2 : Int) (mongoErr2 : Option DriverErr),
          tx1.Commit sqlErr2 sqlRows2 mongoErr2 = (tx1, Option.none, []) := by
  intro tx sqlErr sqlRows mongoErr tx1 calls hcan h
  obtain ⟨c, s, m, r⟩ := tx
  cases c with
  | true => exact absurd hcan (by simp [Transaction.CanCommit])
  | false =>
    cases s with
    | true =>
      cases sqlErr with
      | some e => simp [Transaction.Commit] at h
      | none =>
        cases m with
        | false =>
          simp [Transaction.Commit] at h
          obtain ⟨h1, h2⟩ := h
          subst h1
          exact ⟨rfl, rfl, fun a b c2 => rfl⟩
        | true =>
          cases mongoErr with
          | some e2 => simp [Transaction.Commit] at h
          | none =>
            simp [Transaction.Commit] at h
            obtain ⟨h1, h2⟩ := h
            subst h1
            exact ⟨rfl, rfl, fun a b c2 => rfl⟩
    | false =>
      cases m with
      | false => exact absurd hcan (by simp [Transaction.CanCommit])
      | true =>
        cases mongoErr with
        | some e2 => simp [Transaction.Commit] at h
        | none =>
          simp [Transaction.Commit] at h
          obtain ⟨h1, h2⟩ := h
          subst h1
          exact ⟨rfl, rfl, fun a b c2 => rfl⟩

theorem C2_commit_at_most_once_witness :
    Transaction.CanCommit beginSqlTransaction = true ∧
    (Transaction.mk true true false 7).committed = true ∧
    Transaction.CanCommit (Transaction.mk true true false 7) = false ∧
    Transaction.Commit (Transaction.mk true true false 7) Option.none 0 Option.none =
      (Transaction.mk true true false 7, Option.none, []) := by
  have h := C2_commit_at_most_once beginSqlTransaction Option.none 7 Option.none
    (Transaction.mk true true false 7) [DriverCall.sqlCommit] rfl rfl
  exact ⟨rfl, h.1, h.2.1, h.2.2 Option.none 0 Option.none⟩

/-- C5: `Commit` on an open transaction whose GORM driver commit fails rolls
the transaction back (the driver calls are the commit, then the rollback),
returns the driver error unchanged, and leaves the transaction state exactly
as it was — still uncommitted, rows affected untouched, so the caller may
retry. -/
theorem C5_commit_error_rollback :
    ∀ (tx : Transaction) (e : DriverErr) (sqlRows : Int) (mongoErr : Option DriverErr),
      tx.committed = false → tx.sqlTx = true →
      tx.Commit (some e) sqlRows mongoErr =
        (tx, some e, [DriverCall.sqlCommit, DriverCall.sqlRollback]) := by
  intro tx e sqlRows mongoErr h1 h2
  obtain ⟨c, s, m, r⟩ := tx
  cases c with
  | true => exact Bool.noConfusion h1
  | false =>
    cases s with
    | false => exact Bool.noConfusion h2
    | true => rfl

theorem C5_commit_error_rollback_witness :
    Transaction.Commit beginSqlTransaction (some (DriverErr.mk "boom")) 3 Option.none =
      (beginSqlTransaction, some (DriverErr.mk "boom"),
        [DriverCall.sqlCommit, DriverCall.sqlRollback]) :=
  C5_commit_error_rollback beginSqlTransaction (DriverErr.mk "boom") 3 Option.none rfl rfl

/-- C6: the callback-form transaction entry point begins a transaction,
invokes the callback on it, and returns exactly the callback's error; it
neither commits nor rolls back itself, so the transaction state it hands
back is exactly the one the callback produced. -/
theorem C6_newtx_returns_callback_result :
    ∀ (opts : TxOptions) (startErr : Option DriverErr)
      (fn : Transaction → Option DriverErr × Transaction) (tx0 : Transaction),
      beginTxOf opts startErr = some tx0 →
      NewTx opts startErr fn = ((fn tx0).1, some (fn tx0).2) := by
  intro opts startErr fn tx0 h
  obtain ⟨hdb, hmt⟩ := opts
  cases hdb with
  | true =>
    have h0 : beginSqlTransaction = tx0 := Option.some.inj h
    subst h0
    rfl
  | false =>
    cases hmt with
    | false =>
      have h0 : emptyTransaction = tx0 := Option.some.inj h
      subst h0
      rfl
    | true =>
      cases startErr with
      | some e => exact Option.noConfusion h
      | none =>
        have h0 : beginMongoTransaction = tx0 := Option.some.inj h
        subst h0
        rfl

theorem C6_newtx_returns_callback_result_witness :
    beginTxOf (TxOptions.mk true false) Option.none = some beginSqlTransaction ∧
    NewTx (TxOptions.mk true false) Option.none
      (fun tx => (some (DriverErr.mk "from fn"), tx)) =
      (some (DriverErr.mk "from fn"), some beginSqlTransaction) :=
  ⟨rfl, C6_newtx_returns_callback_result (TxOptions.mk true false) Option.none
    (fun tx => (some (DriverErr.mk "from fn"), tx)) beginSqlTransaction rfl⟩

/-- C8: when the aggregate column is one of the known date fields and no
predicate is supplied, the grouping key is wrapped by the active dialect\'s
date expression: `DATE_FORMAT(col, \'%Y%m%d\')` on MySQL,
`to_char(col, \'YYYYMMDD\')` on PostgreSQL, and `strftime(\'%Y%m%d\', col)` on
SQLite. -/
theorem C8_aggregate_date_expression :
    ∀ (col : String), col ∈ DateFields →
      aggregateGroupColumn .mySQL false col = "DATE_FORMAT(" ++ col ++ ", '%Y%m%d')" ∧
      aggregateGroupColumn .postgreSQL false col = "to_char(" ++ col ++ ", 'YYYYMMDD')" ∧
      aggregateGroupColumn .sqlite false col = "strftime('%Y%m%d', " ++ col ++ ")" := by
  intro col h
  refine ⟨?_, ?_, ?_⟩ <;> simp [aggregateGroupColumn, h]

theorem C8_aggregate_date_expression_witness :
    "created_at" ∈ DateFields ∧
    aggregateGroupColumn .mySQL false "created_at" =
      "DATE_FORMAT(" ++ "created_at" ++ ", '%Y%m%d')" ∧
    aggregateGroupColumn .postgreSQL false "created_at" =
      "to_char(" ++ "created_at" ++ ", 'YYYYMMDD')" ∧
    aggregateGroupColumn .sqlite false "created_at" =
      "strftime('%Y%m%d', " ++ "created_at" ++ ")" :=
  ⟨by decide, C8_aggregate_date_expression "created_at" (by decide)⟩

/-- C10: the query-parameter prologue of `GetModels`.  A nil pointer becomes
a fresh empty struct; for a supplied struct the page size is set to the
default 20 exactly when `Page > 0` and `PageSize < 1`, the sort direction is
lower-cased, and every other field is left unchanged. -/
theorem C10_getmodels_query_defaults :
    ∀ (q : QueryParams),
      (GetModelsQueryDefaults (some q)).Page = q.Page ∧
      (GetModelsQueryDefaults (some q)).OrderByField = q.OrderByField ∧
      (GetModelsQueryDefaults (some q)).SortDirection = q.SortDirection.toLower ∧
      (q.Page > 0 ∧ q.PageSize < 1 →
        (GetModelsQueryDefaults (some q)).PageSize = defaultPageSize) ∧
      (¬(q.Page > 0 ∧ q.PageSize < 1) →
        (GetModelsQueryDefaults (some q)).PageSize = q.PageSize) ∧
      GetModelsQueryDefaults Option.none =
        { Page := 0, PageSize := 0, OrderByField := "", SortDirection := "" } := by
  intro q
  obtain ⟨p, ps, ob, sd⟩ := q
  have hlow : ("" : String).toLower = "" := by
    rw [show ("" : String).toLower = String.mapAux Char.toLower 0 "" from rfl]
    rw [String.mapAux]
    rw [dif_pos (show ("" : String).atEnd 0 = true from rfl)]
  by_cases hc : p > 0 ∧ ps < 1
  · simp [GetModelsQueryDefaults, hc, hlow]
  · simp [GetModelsQueryDefaults, hc, hlow]

theorem C10_getmodels_query_defaults_witness :
    (GetModelsQueryDefaults (some (QueryParams.mk 1 0 "id" "ASC"))).PageSize =
      defaultPageSize ∧
    (GetModelsQueryDefaults (some (QueryParams.mk 1 0 "id" "ASC"))).SortDirection =
      ("ASC" : String).toLower ∧
    (GetModelsQueryDefaults (some (QueryParams.mk 1 0 "id" "ASC"))).Page = 1 := by
  have h := C10_getmodels_query_defaults (QueryParams.mk 1 0 "id" "ASC")
  exact ⟨h.2.2.2.1 (by decide), h.2.2.1, h.1⟩

/-- C4 (amended): over predicates whose keys and string values are free of
the `@` character — which user data has no reason to contain, but which the
original claim does not exclude — one compilation from counter 0 emits
fragments whose `@varN` references are mutually distinct and dense from 0,
and every referenced variable is bound in the accumulated bind map; the S1
instance `{"ids": {"$in": ["a","b","c"]}}` emits exactly
`ids IN (@var0,@var1,@var2)` with binds var0↦"a", var1↦"b", var2↦"c" and
final counter 3. -/
theorem C4_variable_monotonicity :
    (∀ (client : ClientFields) (engine : Engine) (conds : EntryList)
      (frags : List String) (binds : List (String × Value)) (n' : Nat),
      atFreeEntries conds = true →
      CustomWhere client engine conds = some ((frags, binds), n') →
      (frags.flatMap varRefs).Nodup ∧
      frags.flatMap varRefs = varSeq 0 n' ∧
      binds.map Prod.fst = varSeq 0 n' ∧
      ∀ v ∈ frags.flatMap varRefs, v ∈ binds.map Prod.fst) ∧
    CustomWhere clientNone .mySQL s1Input =
      some ((["ids IN (@var0,@var1,@var2)"],
        [("var0", .vStr "a"), ("var1", .vStr "b"), ("var2", .vStr "c")]), 3) := by
  constructor
  · intro client engine conds frags binds n' hfree hcw
    rcases processConditions_vars client engine conds 0 Option.none frags binds n'
      hfree rfl hcw with ⟨_, hf, hb⟩
    rw [Nat.sub_zero] at hf hb
    refine ⟨?_, hf, hb, ?_⟩
    · rw [hf]
      exact varSeq_nodup n' 0
    · intro v hv
      rw [hb]
      rw [hf] at hv
      exact hv
  · rfl

theorem C4_variable_monotonicity_witness :
    atFreeEntries s1Input = true ∧
    ((["ids IN (@var0,@var1,@var2)"] : List String).flatMap varRefs).Nodup ∧
    (["ids IN (@var0,@var1,@var2)"] : List String).flatMap varRefs = varSeq 0 3 := by
  have h := C4_variable_monotonicity.1 clientNone .mySQL s1Input
    ["ids IN (@var0,@var1,@var2)"]
    [("var0", .vStr "a"), ("var1", .vStr "b"), ("var2", .vStr "c")] 3 (by decide) rfl
  exact ⟨by decide, h.1, h.2.1⟩

/-- C4 counterexample to the unamended claim: the predicate
`{"a@var0": "x"}` — a field name containing the text `@var0` — compiles to
the single fragment `a@var0 = @var0` allocating one variable, and that
fragment\'s `@varN` references are `var0` twice: they are not unique, and
they are not the one-element dense sequence the claim promises. -/
theorem C4_at_in_field_name_counterexample :
    CustomWhere clientNone .mySQL badAtInput =
      some ((["a@var0 = @var0"], [("var0", .vStr "x")]), 1) ∧
    ¬ ((["a@var0 = @var0"] : List String).flatMap varRefs).Nodup ∧
    (["a@var0 = @var0"] : List String).flatMap varRefs ≠ varSeq 0 1 := by
  refine ⟨rfl, ?_, ?_⟩
  · rw [List.flatMap_cons, List.flatMap_nil, List.append_nil, varRefs_badFrag]
    decide
  · rw [List.flatMap_cons, List.flatMap_nil, List.append_nil, varRefs_badFrag]
    intro h
    have := congrArg List.length h
    simp [varSeq] at this

end GoDatastore
